import Mathlib

/-!
Shallow embedding of the phosphor-ui widget toolkit logic that the
specification claims are about.  Sources embedded below:

* src/unnamed/part_002 — the PanelLayout class (insertChild, attachChild,
  moveChild), with the parent DOM node modelled as a list of child node ids
  and the message dispatch modelled as an explicit effect trace.
* src/src/menu.ts — the Menu class: the child/parent submenu link state
  machine (openChildMenu, the delayed close task, onCloseRequest), the timed
  open/close transitions (OPEN_DELAY, CLOSE_DELAY), the item/node/content
  bookkeeping (insertItem, removeItem, clearItems), the activeIndex setter
  coercion with Private.isSelectable, the attach/detach event listener
  wiring, and Private.openRootMenu geometry.
* src/src/menubar.ts — the MenuBar closeChildMenu operation and the MenuBar
  activeIndex setter.
* src/src/layout.ts and src/src/layout/layout.ts — the Layout parent setter
  (identical in both files).
* src/src/layout-util.ts — setGeometry.  The JS NaN initial rect values are
  modelled by Option Int (none compares unequal to every number, exactly as
  NaN does under the !== checks of the source).

JS numbers that only ever hold pixel coordinates or indices are modelled as
Int; arguments on which the source calls Math.floor with observable effect
are modelled as Rat together with Rat.floor.
-/

namespace PhosphorUi

/-- The result of the JS Array/Vector indexOf search used throughout the
source: the index of the first occurrence of the element, or -1 when the
element is absent. -/
def jsIndexOf {α : Type} [DecidableEq α] (l : List α) (x : α) : Int :=
  if x ∈ l then (List.indexOf x l : Int) else -1

/-- The index clamp idiom of the source:
Math.max(0, Math.min(Math.floor(index), n)) for an integral index. -/
def jsClampIndex (index : Int) (n : Nat) : Nat :=
  (max 0 (min index (n : Int))).toNat

/-- DOM Node.insertBefore on a list of child node ids: with a null reference
the new node is appended, otherwise it is inserted immediately before the
first occurrence of the reference node. -/
def domInsertBefore : List Nat → Nat → Option Nat → List Nat
  | l, x, none => l ++ [x]
  | [], x, some _ => [x]
  | y :: l, x, some r =>
    if y = r then x :: y :: l else y :: domInsertBefore l x (some r)

/-- The move function of phosphor-core applied to a list: the element at
fromIndex is removed and reinserted at toIndex. -/
def seqMove (l : List Nat) (fromIndex toIndex : Nat) : List Nat :=
  match l.get? fromIndex with
  | none => l
  | some x => (l.eraseIdx fromIndex).insertIdx toIndex x

/-- The supported menu item types of src/src/menu.ts. -/
inductive MenuItemType
  | normal
  | check
  | radio
  | submenu
  | separator
  deriving DecidableEq, Repr

/-- A menu item as far as the embedded logic observes it: its type, its
disabled flag, its submenu reference (an id, none for null) and whether it
has a handler (only the truthiness of the handler is ever read). -/
structure MenuItem where
  type : MenuItemType
  disabled : Bool
  submenu : Option Nat
  handler : Bool
  deriving DecidableEq, Repr

/-- Private.isSelectable of src/src/menu.ts: separators and disabled items
are not selectable, a submenu item is selectable iff it has a submenu, and
any other item is selectable iff it has a handler. -/
def isSelectable (item : MenuItem) : Bool :=
  if item.type = MenuItemType.separator then false
  else if item.disabled then false
  else if item.type = MenuItemType.submenu then item.submenu.isSome
  else item.handler

/-! ## PanelLayout (src/unnamed/part_002) -/

namespace PanelLayout

/-- The widget messages dispatched by the PanelLayout child lifecycle. -/
inductive WMsg
  | beforeDetach
  | afterAttach
  deriving DecidableEq, Repr

/-- The parent widget of a layout, as the layout observes it: its id, the
list of child node ids of its DOM node, and its isAttached flag. -/
structure PLParent where
  id : Nat
  node : List Nat
  isAttached : Bool
  deriving DecidableEq, Repr

/-- The state of a PanelLayout: its children vector (widget ids; each
widget's DOM node is identified with the widget id) and its optional
parent. -/
structure PLState where
  children : List Nat
  parent : Option PLParent
  deriving DecidableEq, Repr

/-- The side effects performed by insertChild: the initial assignment of the
child widget's parent, and the messages sent to the child. -/
inductive PLEff
  | setParent (w : Nat) (p : Option Nat)
  | send (w : Nat) (m : WMsg)
  deriving DecidableEq, Repr

/-- PanelLayout.attachChild: the child node is inserted before the node
currently at the given index of the parent node (append when past the end),
and an after-attach message is sent iff the parent is attached. -/
def attachChild (p : PLParent) (index : Nat) (child : Nat) :
    PLParent × List PLEff :=
  let ref := p.node.get? index
  ({ p with node := domInsertBefore p.node child ref },
    if p.isAttached then [PLEff.send child WMsg.afterAttach] else [])

/-- PanelLayout.moveChild: a before-detach message iff the parent is
attached, then the child node is removed and reinserted before the node at
toIndex of the remaining children, then an after-attach message iff the
parent is attached. -/
def moveChild (p : PLParent) (fromIndex toIndex : Nat) (child : Nat) :
    PLParent × List PLEff :=
  let pre := if p.isAttached then [PLEff.send child WMsg.beforeDetach] else []
  let n1 := p.node.erase child
  let ref := n1.get? toIndex
  ({ p with node := domInsertBefore n1 child ref },
    pre ++ (if p.isAttached then [PLEff.send child WMsg.afterAttach] else []))

/-- PanelLayout.insertChild, returning the new layout state together with
the trace of side effects.  The initial child.parent assignment is recorded
as a setParent effect; its widget-side processing is outside the layout
model. -/
def insertChild (s : PLState) (index : Int) (child : Nat) :
    PLState × List PLEff :=
  let effs0 := [PLEff.setParent child (s.parent.map PLParent.id)]
  let n := s.children.length
  let j := jsClampIndex index n
  let i := jsIndexOf s.children child
  if i = -1 then
    let cs := s.children.insertIdx j child
    match s.parent with
    | some p =>
      let r := attachChild p j child
      ({ children := cs, parent := some r.1 }, effs0 ++ r.2)
    | none => ({ children := cs, parent := none }, effs0)
  else
    let j2 := if j = n then j - 1 else j
    if i = (j2 : Int) then (s, effs0)
    else
      let cs := seqMove s.children i.toNat j2
      match s.parent with
      | some p =>
        let r := moveChild p i.toNat j2 child
        ({ children := cs, parent := some r.1 }, effs0 ++ r.2)
      | none => ({ children := cs, parent := none }, effs0)

/-- Well-formedness of a layout state: the children are distinct widgets,
and when the layout is parented the parent DOM node children coincide with
the layout children. -/
def WF (s : PLState) : Prop :=
  s.children.Nodup ∧
    (match s.parent with
      | some p => p.node = s.children
      | none => True)

/-- The claim C1 exactly as stated: in the moved case the before-detach and
after-attach messages are claimed whenever the layout has a parent, with no
condition on the parent being attached. -/
def ClaimC1Stated : Prop :=
  ∀ (s : PLState) (k : Int) (w : Nat), WF s →
    let n := s.children.length
    let j := jsClampIndex k n
    let r := insertChild s k w
    (w ∉ s.children →
      r.1.children = s.children.insertIdx j w ∧
      (∀ p, s.parent = some p →
        r.1.parent = some { p with node := s.children.insertIdx j w } ∧
        r.2 = PLEff.setParent w (some p.id) ::
          (if p.isAttached then [PLEff.send w WMsg.afterAttach] else []))) ∧
    (w ∈ s.children →
      let i := s.children.indexOf w
      let j2 := if j = n then n - 1 else j
      (i ≠ j2 → ∀ p, s.parent = some p →
        r.1.children = (s.children.eraseIdx i).insertIdx j2 w ∧
        r.2 = [PLEff.setParent w (some p.id),
               PLEff.send w WMsg.beforeDetach,
               PLEff.send w WMsg.afterAttach]))

end PanelLayout

/-! ## Menu submenu link state machine (src/src/menu.ts) -/

namespace MenuChain

/-- Pointwise update of a function-valued field. -/
def upd {α : Type} (f : Nat → α) (k : Nat) (v : α) : Nat → α :=
  fun x => if x = k then v else f x

/-- The state of the whole collection of menus, indexed by menu id: the
childMenu, childItem and parentMenu links, the pending open and close
timers, the attachment flags and the active indices. -/
structure MenuSt where
  childMenu : Nat → Option Nat
  childItem : Nat → Option Nat
  parentMenu : Nat → Option Nat
  openTimer : Nat → Bool
  closeTimer : Nat → Bool
  attached : Nat → Bool
  activeIndex : Nat → Int

/-- The initial configuration: no links, no timers, nothing attached, no
active item. -/
def initMenuSt : MenuSt where
  childMenu := fun _ => none
  childItem := fun _ => none
  parentMenu := fun _ => none
  openTimer := fun _ => false
  closeTimer := fun _ => false
  attached := fun _ => false
  activeIndex := fun _ => -1

/-- cancelPendingOpen and cancelPendingClose of menu m. -/
def cancelTimers (m : Nat) (s : MenuSt) : MenuSt :=
  { s with openTimer := upd s.openTimer m false,
           closeTimer := upd s.closeTimer m false }

/-- The activeIndex reset performed by onCloseRequest (the setter coerces -1
to -1 for every menu). -/
def resetActive (m : Nat) (s : MenuSt) : MenuSt :=
  { s with activeIndex := upd s.activeIndex m (-1) }

/-- The child unlink block shared by onCloseRequest and the delayed close
task: childMenu and childItem of m are cleared and the parentMenu of the
child c is cleared. -/
def unlinkChild (m c : Nat) (s : MenuSt) : MenuSt :=
  { s with childMenu := upd s.childMenu m none,
           childItem := upd s.childItem m none,
           parentMenu := upd s.parentMenu c none }

/-- The parent unlink block of onCloseRequest: the parentMenu of m is
cleared, and the parent p has its pending timers canceled and its childMenu
and childItem cleared. -/
def unlinkParent (m p : Nat) (s : MenuSt) : MenuSt :=
  { s with parentMenu := upd s.parentMenu m none,
           openTimer := upd s.openTimer p false,
           closeTimer := upd s.closeTimer p false,
           childMenu := upd s.childMenu p none,
           childItem := upd s.childItem p none }

/-- The final detach of onCloseRequest. -/
def detachMenu (m : Nat) (s : MenuSt) : MenuSt :=
  { s with attached := upd s.attached m false }

/-- Menu.onCloseRequest of menu m (close() delivers a close-request
message).  The fuel bounds the recursion depth of the child close cascade;
fuel 0 models a cascade that has run out, leaving the state unchanged. -/
def closeMenu : Nat → Nat → MenuSt → MenuSt
  | 0, _, s => s
  | Nat.succ fuel, m, s =>
    let s1 := cancelTimers m s
    let s2 := resetActive m s1
    let s3 :=
      match s2.childMenu m with
      | some c => closeMenu fuel c (unlinkChild m c s2)
      | none => s2
    let s4 :=
      match s3.parentMenu m with
      | some p => unlinkParent m p s3
      | none => s3
    detachMenu m s4

/-- Menu.openChildMenu on menu m for an item (id) whose submenu is sub: a
no-op when the item is already the child item, otherwise the pending open is
canceled, the child links are set on both sides and the submenu is attached
by Private.openSubmenu. -/
def openChildMenu (m item sub : Nat) (s : MenuSt) : MenuSt :=
  if s.childItem m = some item then s
  else
    let s1 := { s with openTimer := upd s.openTimer m false }
    let s2 := { s1 with childItem := upd s1.childItem m (some item),
                        childMenu := upd s1.childMenu m (some sub) }
    let s3 := { s2 with parentMenu := upd s2.parentMenu sub (some m) }
    { s3 with attached := upd s3.attached sub true }

/-- The scheduling part of Menu.closeChildMenu: a no-op when a close task is
already pending or no child menu is open, otherwise a close task is armed. -/
def scheduleClose (m : Nat) (s : MenuSt) : MenuSt :=
  if s.closeTimer m ∨ s.childMenu m = none then s
  else { s with closeTimer := upd s.closeTimer m true }

/-- The delayed close task body of Menu.closeChildMenu: the timer is
cleared; if a child menu is still present the links are cleared on both
sides and the child is closed. -/
def fireClose (fuel m : Nat) (s : MenuSt) : MenuSt :=
  let s1 := { s with closeTimer := upd s.closeTimer m false }
  match s1.childMenu m with
  | none => s1
  | some c => closeMenu fuel c (unlinkChild m c s1)

/-- The states reachable from the initial configuration by the open/close
operations.  An open step requires the submenu being opened not to be linked
as the open child of a different menu, which is how the submenus of distinct
items relate in any real menu tree. -/
inductive Reachable : MenuSt → Prop
  | init : Reachable initMenuSt
  | openStep (m item sub : Nat) (s : MenuSt) (hs : Reachable s)
      (hsub : s.parentMenu sub = none ∨ s.parentMenu sub = some m) :
      Reachable (openChildMenu m item sub s)
  | scheduleStep (m : Nat) (s : MenuSt) (hs : Reachable s) :
      Reachable (scheduleClose m s)
  | fireStep (fuel m : Nat) (s : MenuSt) (hs : Reachable s)
      (ht : s.closeTimer m = true) :
      Reachable (fireClose fuel m s)
  | closeStep (fuel m : Nat) (s : MenuSt) (hs : Reachable s) :
      Reachable (closeMenu fuel m s)

/-- Forward link consistency: every childMenu link has a matching parentMenu
back link. -/
def linksForward (s : MenuSt) : Prop :=
  ∀ m c, s.childMenu m = some c → s.parentMenu c = some m

/-- Backward link consistency: every parentMenu link has a matching
childMenu link. -/
def linksBackward (s : MenuSt) : Prop :=
  ∀ m p, s.parentMenu m = some p → s.childMenu p = some m

/-- The claim C2 exactly as stated: both directions of link consistency in
every reachable state. -/
def ClaimC2Stated : Prop :=
  ∀ s, Reachable s → linksForward s ∧ linksBackward s

end MenuChain

/-! ## Timed submenu transitions (src/src/menu.ts) -/

namespace TimedMenu

/-- The ms delay for opening a submenu (src/src/menu.ts). -/
def OPEN_DELAY : Nat := 300

/-- The ms delay for closing a submenu (src/src/menu.ts). -/
def CLOSE_DELAY : Nat := 300

/-- A pending submenu open task: its absolute deadline and the item and item
node captured by the closure. -/
structure PendingOpen where
  deadline : Nat
  item : MenuItem
  node : Nat
  deriving DecidableEq, Repr

/-- The timed state of a single root menu (for a root menu the ancestor loop
of syncAncestors has no iterations): current time, items, active index,
child item and child menu, and the pending open and close tasks. -/
structure TMenu where
  now : Nat
  items : List MenuItem
  activeIndex : Int
  childItem : Option MenuItem
  childMenu : Option Nat
  pendingOpen : Option PendingOpen
  pendingClose : Option Nat
  deriving DecidableEq, Repr

/-- Menu.cancelPendingOpen: clearTimeout of the open task. -/
def cancelPendingOpen (s : TMenu) : TMenu :=
  { s with pendingOpen := none }

/-- Menu.cancelPendingClose: clearTimeout of the close task. -/
def cancelPendingClose (s : TMenu) : TMenu :=
  { s with pendingClose := none }

/-- The activeIndex setter coercion of src/src/menu.ts: the floored value is
sent to -1 when out of range, and likewise when the designated item is not
selectable. -/
def coerceActiveIndex (items : List MenuItem) (value : ℚ) : Int :=
  let i0 := Rat.floor value
  let i1 := if i0 < 0 ∨ (items.length : Int) ≤ i0 then -1 else i0
  match items.get? i1.toNat with
  | some it => if isSelectable it then i1 else -1
  | none => i1

/-- Menu.openChildMenu, single menu view: a no-op when the item is already
the open child item, otherwise the pending open is canceled and the child
links are set (Private.openSubmenu positions and attaches the submenu in the
DOM, outside this state). -/
def openChildMenu (s : TMenu) (item : MenuItem) (node : Nat) : TMenu :=
  if s.childItem = some item then s
  else
    let s1 := cancelPendingOpen s
    { s1 with childItem := some item, childMenu := item.submenu }

/-- Menu.openChildMenuDelayed: a no-op when the item is already the open
child item, otherwise the pending open is canceled and a new open task is
armed OPEN_DELAY ms in the future. -/
def openChildMenuDelayed (s : TMenu) (item : MenuItem) (node : Nat) : TMenu :=
  if s.childItem = some item then s
  else
    let s1 := cancelPendingOpen s
    let po : PendingOpen := { deadline := s1.now + OPEN_DELAY, item := item, node := node }
    { s1 with pendingOpen := some po }

/-- Menu.closeChildMenu: a no-op when a close task is pending or no child
menu is open, otherwise a close task is armed CLOSE_DELAY ms in the
future. -/
def closeChildMenu (s : TMenu) : TMenu :=
  if s.pendingClose.isSome ∨ s.childMenu = none then s
  else { s with pendingClose := some (s.now + CLOSE_DELAY) }

/-- The open task firing at its deadline: the timer id is reset, then
openChildMenu runs with the captured item and node. -/
def fireOpen (s : TMenu) : TMenu :=
  match s.pendingOpen with
  | some po =>
    if s.now = po.deadline then
      openChildMenu { s with pendingOpen := none } po.item po.node
    else s
  | none => s

/-- The close task firing at its deadline: the timer id is reset; if a child
menu is still open its links are cleared and it is closed. -/
def fireClose (s : TMenu) : TMenu :=
  match s.pendingClose with
  | some d =>
    if s.now = d then
      let s1 := { s with pendingClose := none }
      match s1.childMenu with
      | none => s1
      | some _ => { s1 with childMenu := none, childItem := none }
    else s
  | none => s

/-- Menu.evtMouseMove with the hit-test result i supplied by the
environment: bail when the hovered index is unchanged, otherwise the active
index is assigned through the setter and the pending open is canceled.  The
subsequent submenu-opening block is commented out in the source, so the
handler ends here. -/
def evtMouseMove (s : TMenu) (i : Int) : TMenu :=
  if i = s.activeIndex then s
  else
    let s1 := { s with activeIndex := coerceActiveIndex s.items (i : ℚ) }
    cancelPendingOpen s1

/-- The claim C3 as stated for the open transition: hovering a submenu item
(hit index on a selectable submenu item that is not the open child item)
leaves a pending open task.  The source cancels any pending open there and
never arms one. -/
def ClaimC3Stated : Prop :=
  ∀ (s : TMenu) (i : Nat) (it : MenuItem),
    s.items.get? i = some it →
    it.submenu.isSome →
    isSelectable it = true →
    (i : Int) ≠ s.activeIndex →
    s.childItem ≠ some it →
    (evtMouseMove s (i : Int)).pendingOpen ≠ none

end TimedMenu

/-! ## Menu item/node/content bookkeeping (src/src/menu.ts) -/

namespace MenuItems

/-- The item bookkeeping state of a Menu: the items vector, the item nodes
vector (node ids), the children of the content node, the active index, and
the next fresh node id handed out by the renderer. -/
structure MenuView where
  items : List MenuItem
  nodes : List Nat
  content : List Nat
  activeIndex : Int
  nextNodeId : Nat
  deriving DecidableEq, Repr

/-- An empty menu. -/
def menuInit : MenuView where
  items := []
  nodes := []
  content := []
  activeIndex := -1
  nextNodeId := 0

/-- The Menu activeIndex setter (the ACTIVE_CLASS classList updates touch
only node classes, which this state does not observe). -/
def setActiveIndex (s : MenuView) (value : ℚ) : MenuView :=
  { s with activeIndex := TimedMenu.coerceActiveIndex s.items value }

/-- The Menu activeItem setter: activeIndex is assigned the indexOf of the
value in the items vector (-1 for null or for an absent item). -/
def setActiveItem (s : MenuView) (value : Option MenuItem) : MenuView :=
  match value with
  | none => setActiveIndex s (-1)
  | some it => setActiveIndex s ((jsIndexOf s.items it : Int) : ℚ)

/-- The Menu activeItemNode setter: activeIndex is assigned the indexOf of
the node in the nodes vector (-1 for null or for an absent node). -/
def setActiveItemNode (s : MenuView) (value : Option Nat) : MenuView :=
  match value with
  | none => setActiveIndex s (-1)
  | some nd => setActiveIndex s ((jsIndexOf s.nodes nd : Int) : ℚ)

/-- Menu.insertItem: the active index is reset, the insert index is clamped,
a fresh node is created, item and node are inserted into the vectors at the
clamped index, and the node is inserted into the content node before the
next sibling node. -/
def insertItem (s : MenuView) (index : Int) (item : MenuItem) : MenuView :=
  let s0 := setActiveIndex s (-1)
  let i := jsClampIndex index s0.items.length
  let node := s0.nextNodeId
  let items2 := s0.items.insertIdx i item
  let nodes2 := s0.nodes.insertIdx i node
  let ref := nodes2.get? (i + 1)
  { s0 with items := items2,
            nodes := nodes2,
            content := domInsertBefore s0.content node ref,
            nextNodeId := s0.nextNodeId + 1 }

/-- Menu.removeItem: a no-op when the index is out of range; otherwise the
active index is reset, the item and its node leave the vectors, and the node
leaves the content node. -/
def removeItem (s : MenuView) (index : Int) : MenuView :=
  if index < 0 ∨ (s.items.length : Int) ≤ index then s
  else
    let s0 := setActiveIndex s (-1)
    match s0.nodes.get? index.toNat with
    | some node =>
      { s0 with items := s0.items.eraseIdx index.toNat,
                nodes := s0.nodes.eraseIdx index.toNat,
                content := s0.content.erase node }
    | none => s0

/-- Menu.clearItems: the active index is reset and the three containers are
emptied. -/
def clearItems (s : MenuView) : MenuView :=
  let s0 := setActiveIndex s (-1)
  { s0 with items := [], nodes := [], content := [] }

/-- The item mutation operations of the Menu. -/
inductive MenuOp
  | insert (index : Int) (item : MenuItem)
  | remove (index : Int)
  | clear
  deriving DecidableEq, Repr

/-- Run one operation. -/
def applyMenuOp (s : MenuView) : MenuOp → MenuView
  | MenuOp.insert index item => insertItem s index item
  | MenuOp.remove index => removeItem s index
  | MenuOp.clear => clearItems s

/-- Run a sequence of operations. -/
def applyMenuOps (ops : List MenuOp) (s : MenuView) : MenuView :=
  ops.foldl applyMenuOp s

/-- The strengthened invariant carried through every operation: vector
lengths agree, the content node children coincide positionally with the item
nodes, the node ids are distinct, and all node ids are below the fresh
counter. -/
def MenuWF (s : MenuView) : Prop :=
  s.nodes.length = s.items.length ∧
  s.content = s.nodes ∧
  s.nodes.Nodup ∧
  ∀ x ∈ s.nodes, x < s.nextNodeId

end MenuItems

/-! ## MenuBar child menu handling (src/src/menubar.ts) -/

namespace MenuBarM

/-- The state of a MenuBar: its menus vector (menu ids), the open child
menu, the active index, the ACTIVE_CLASS flag on the bar node, the capturing
document mousedown listener flag, the per-item-node ACTIVE_CLASS flags, and
the log of menus that were closed. -/
structure MenuBarSt where
  menus : List Nat
  childMenu : Option Nat
  activeIndex : Int
  barActive : Bool
  docMousedown : Bool
  nodeActive : List Bool
  closed : List Nat
  deriving DecidableEq, Repr

/-- The MenuBar activeIndex setter coercion: the floored value is sent to -1
when out of range. -/
def barCoerceIndex (n : Nat) (value : ℚ) : Int :=
  let i := Rat.floor value
  if i < 0 ∨ (n : Int) ≤ i then -1 else i

/-- The MenuBar activeIndex setter: coerce, bail when unchanged, move the
ACTIVE_CLASS from the old item node to the new one, store the index. -/
def setActiveIndex (s : MenuBarSt) (value : ℚ) : MenuBarSt :=
  let i := barCoerceIndex s.menus.length value
  if s.activeIndex = i then s
  else
    let na1 := if s.activeIndex ≠ -1
      then s.nodeActive.set s.activeIndex.toNat false else s.nodeActive
    let na2 := if i ≠ -1 then na1.set i.toNat true else na1
    { s with activeIndex := i, nodeActive := na2 }

/-- MenuBar.closeChildMenu: a no-op when no child menu is open; otherwise
the ACTIVE_CLASS leaves the bar, the capturing document mousedown listener
is removed, the child menu reference is cleared, the menu is closed, and the
active index is reset through the setter. -/
def closeChildMenu (s : MenuBarSt) : MenuBarSt :=
  match s.childMenu with
  | none => s
  | some menu =>
    let s1 := { s with barActive := false }
    let s2 := { s1 with docMousedown := false }
    let s3 := { s2 with childMenu := none }
    let s4 := { s3 with closed := s3.closed ++ [menu] }
    setActiveIndex s4 (-1)

end MenuBarM

/-! ## Menu.open geometry (src/src/menu.ts, Private.openRootMenu) -/

namespace MenuOpenGeo

/-- The viewport quantities read from window and document. -/
structure ViewPort where
  pageXOffset : Int
  pageYOffset : Int
  clientWidth : Int
  clientHeight : Int
  deriving DecidableEq, Repr

/-- The measured bounding rect of the menu node after attachment. -/
structure MenuRect where
  width : Int
  height : Int
  deriving DecidableEq, Repr

/-- The coordinate adjustment of Private.openRootMenu: horizontal overflow
pulls the menu back to the right viewport edge, vertical overflow flips the
menu above the anchor or clamps it to the bottom edge, and the final style
coordinates are clamped to be nonnegative.  Returns (left, top). -/
def openRootMenu (x y : Int) (vp : ViewPort) (r : MenuRect)
    (forceX forceY : Bool) : Int × Int :=
  let x2 := if ¬forceX ∧ vp.pageXOffset + vp.clientWidth < x + r.width
    then vp.pageXOffset + vp.clientWidth - r.width else x
  let y2 := if ¬forceY ∧ vp.pageYOffset + vp.clientHeight < y + r.height
    then (if vp.pageYOffset + vp.clientHeight < y
      then vp.pageYOffset + vp.clientHeight - r.height
      else y - r.height)
    else y
  (max 0 x2, max 0 y2)

/-- Menu.open: a no-op (none) when the menu is already attached, otherwise
the root menu opens at the location computed with forceX and forceY both
false. -/
def menuOpen (isAttached : Bool) (x y : Int) (vp : ViewPort) (r : MenuRect) :
    Option (Int × Int) :=
  if isAttached then none else some (openRootMenu x y vp r false false)

end MenuOpenGeo

/-! ## Menu event listener wiring (src/src/menu.ts) -/

namespace Listeners

/-- The two registration targets used by the menu: its own node and the
document. -/
inductive EvtTarget
  | node
  | doc
  deriving DecidableEq, Repr

/-- An installed listener entry: target, event type and capture flag (the
listener object itself is the menu in every registration). -/
structure ListenerEntry where
  target : EvtTarget
  type : String
  capture : Bool
  deriving DecidableEq, Repr

/-- DOM addEventListener set semantics: registering an already-installed
entry is a no-op. -/
def addEventListener (ls : List ListenerEntry) (l : ListenerEntry) :
    List ListenerEntry :=
  if l ∈ ls then ls else ls ++ [l]

/-- DOM removeEventListener: the matching entry is removed. -/
def removeEventListener (ls : List ListenerEntry) (l : ListenerEntry) :
    List ListenerEntry :=
  ls.erase l

/-- The listener entries registered by Menu.onAfterAttach, in registration
order (the node mousedown registration is commented out in the source). -/
def menuListeners : List ListenerEntry :=
  [{ target := EvtTarget.node, type := "mouseup", capture := false },
   { target := EvtTarget.node, type := "mousemove", capture := false },
   { target := EvtTarget.node, type := "mouseleave", capture := false },
   { target := EvtTarget.node, type := "contextmenu", capture := false },
   { target := EvtTarget.doc, type := "keydown", capture := true },
   { target := EvtTarget.doc, type := "keypress", capture := true },
   { target := EvtTarget.doc, type := "mousedown", capture := true }]

/-- Menu.onAfterAttach. -/
def onAfterAttach (ls : List ListenerEntry) : List ListenerEntry :=
  menuListeners.foldl addEventListener ls

/-- Menu.onBeforeDetach: the same entries are removed, with the same target,
type and capture flag. -/
def onBeforeDetach (ls : List ListenerEntry) : List ListenerEntry :=
  menuListeners.foldl removeEventListener ls

end Listeners

/-! ## Layout.parent setter (src/src/layout.ts and src/src/layout/layout.ts) -/

namespace LayoutParent

/-- The parent candidate as the setter observes it: the widget id and the
layout installed on the widget. -/
structure WidgetRef where
  id : Nat
  layout : Option Nat
  deriving DecidableEq, Repr

/-- The Layout parent setter of both layout.ts files (they are identical):
null throws, re-assigning the current parent is a no-op, a different
existing parent throws, a widget whose layout is not this layout throws, and
otherwise the parent is stored. -/
def setParent (self : Nat) (cur : Option Nat) (value : Option WidgetRef) :
    Except String (Option Nat) :=
  match value with
  | none => Except.error "Cannot set parent widget to null."
  | some w =>
    if cur = some w.id then Except.ok cur
    else if cur ≠ none then Except.error "Cannot change parent widget."
    else if w.layout ≠ some self then Except.error "Invalid parent widget."
    else Except.ok (some w.id)

end LayoutParent

/-! ## setGeometry (src/src/layout-util.ts) -/

namespace Geometry

/-- The stored offset rect of a widget.  The source initializes and resets
the fields to NaN, which compares unequal to every number under the !==
checks; none models that. -/
structure GeoRect where
  top : Option Int
  left : Option Int
  width : Option Int
  height : Option Int
  deriving DecidableEq, Repr

/-- The inline geometry styles of the widget node (none when unset). -/
structure GeoStyle where
  top : Option Int
  left : Option Int
  width : Option Int
  height : Option Int
  deriving DecidableEq, Repr

/-- A widget as setGeometry observes it: its stored rect, its styles, and
the resize messages it has received (each carrying width and height). -/
structure GeoState where
  rect : GeoRect
  style : GeoStyle
  msgs : List (Int × Int)
  deriving DecidableEq, Repr

/-- setGeometry of src/src/layout-util.ts: each differing field updates the
stored rect and the style, and a ResizeMessage carrying the new width and
height goes out iff the width or the height changed. -/
def setGeometry (s : GeoState) (left top width height : Int) : GeoState :=
  let s1 := if s.rect.top ≠ some top
    then { s with rect := { s.rect with top := some top },
                  style := { s.style with top := some top } }
    else s
  let s2 := if s1.rect.left ≠ some left
    then { s1 with rect := { s1.rect with left := some left },
                   style := { s1.style with left := some left } }
    else s1
  let resizedW := s2.rect.width ≠ some width
  let s3 := if s2.rect.width ≠ some width
    then { s2 with rect := { s2.rect with width := some width },
                   style := { s2.style with width := some width } }
    else s2
  let resizedH := s3.rect.height ≠ some height
  let s4 := if s3.rect.height ≠ some height
    then { s3 with rect := { s3.rect with height := some height },
                   style := { s3.style with height := some height } }
    else s3
  if resizedW ∨ resizedH
    then { s4 with msgs := s4.msgs ++ [(width, height)] }
    else s4

end Geometry

end PhosphorUi

/-! # Theorems -/

namespace PhosphorUi

theorem jsIndexOf_eq_neg_one {α : Type} [DecidableEq α] (l : List α) (x : α) :
    jsIndexOf l x = -1 ↔ x ∉ l := by
  unfold jsIndexOf
  split
  · rename_i h
    constructor
    · intro he
      exfalso
      omega
    · intro hx
      exact absurd h hx
  · rename_i h
    simp [h]

theorem jsIndexOf_of_mem {α : Type} [DecidableEq α] {l : List α} {x : α}
    (h : x ∈ l) : jsIndexOf l x = (List.indexOf x l : Int) := by
  simp [jsIndexOf, h]

theorem domInsertBefore_get (l : List Nat) (x : Nat) (j : Nat)
    (hnd : l.Nodup) (hj : j ≤ l.length) :
    domInsertBefore l x (l.get? j) = l.insertIdx j x := by
  induction l generalizing j with
  | nil =>
    have hj0 : j = 0 := Nat.le_zero.mp hj
    subst hj0
    rfl
  | cons y t ih =>
    have hy : y ∉ t := (List.nodup_cons.mp hnd).1
    have hnd' : t.Nodup := (List.nodup_cons.mp hnd).2
    rcases j with _ | jj
    · show domInsertBefore (y :: t) x (some y) = x :: y :: t
      simp [domInsertBefore]
    · have hj' : jj ≤ t.length := Nat.succ_le_succ_iff.mp hj
      have hg : (y :: t).get? (jj + 1) = t.get? jj := rfl
      rw [hg]
      rcases htg : t.get? jj with _ | r
      · have hlen : t.length ≤ jj := by
          by_contra hlt
          push_neg at hlt
          rw [List.get?_eq_get hlt] at htg
          cases htg
        have hjj : jj = t.length := le_antisymm hj' hlen
        subst hjj
        show (y :: t) ++ [x] = List.insertIdx (t.length + 1) x (y :: t)
        rw [List.insertIdx_succ_cons, List.insertIdx_length_self]
        rfl
      · have hr : r ∈ t := List.get?_mem htg
        have hyr : y ≠ r := fun he => hy (he ▸ hr)
        show (if y = r then x :: y :: t else y :: domInsertBefore t x (some r)) =
          List.insertIdx (jj + 1) x (y :: t)
        rw [if_neg hyr, ← htg, ih jj hnd' hj', List.insertIdx_succ_cons]

theorem erase_eq_eraseIdx_nodup (l : List Nat) (i : Nat) (x : Nat)
    (hnd : l.Nodup) (h : l.get? i = some x) :
    l.erase x = l.eraseIdx i := by
  induction l generalizing i with
  | nil => cases h
  | cons y t ih =>
    have hy : y ∉ t := (List.nodup_cons.mp hnd).1
    have hnd' : t.Nodup := (List.nodup_cons.mp hnd).2
    rcases i with _ | ii
    · have hx : y = x := by simpa using h
      subst hx
      simp [List.erase_cons_head, List.eraseIdx]
    · have h' : t.get? ii = some x := h
      have hx : x ∈ t := List.get?_mem h'
      have hyx : y ≠ x := fun he => hy (he ▸ hx)
      show (y :: t).erase x = y :: t.eraseIdx ii
      rw [List.erase_cons, if_neg (by simp [hyx]), ih ii hnd' h']

/-- C8: the Layout parent setter throws on null, on an existing different
parent, and on a widget whose layout is not this layout; re-assigning the
current parent is a no-op; every throwing case leaves the parent unchanged
(the model returns the error without a new state), so a successfully stored
parent can never change afterwards. -/
theorem layout_setParent_spec (self : Nat) (cur : Option Nat)
    (value : Option LayoutParent.WidgetRef) :
    (value = none →
      LayoutParent.setParent self cur value =
        Except.error "Cannot set parent widget to null.") ∧
    (∀ w, value = some w → cur = some w.id →
      LayoutParent.setParent self cur value = Except.ok cur) ∧
    (∀ w p, value = some w → cur = some p → p ≠ w.id →
      LayoutParent.setParent self cur value =
        Except.error "Cannot change parent widget.") ∧
    (∀ w, value = some w → cur = none → w.layout ≠ some self →
      LayoutParent.setParent self cur value =
        Except.error "Invalid parent widget.") ∧
    (∀ w, value = some w → cur = none → w.layout = some self →
      LayoutParent.setParent self cur value = Except.ok (some w.id)) ∧
    (∀ r, LayoutParent.setParent self cur value = Except.ok r →
      r = cur ∨ cur = none) := by
  refine ⟨?_, ?_, ?_, ?_, ?_, ?_⟩
  · rintro rfl
    rfl
  · rintro w rfl hcur
    simp [LayoutParent.setParent, hcur]
  · rintro w p rfl rfl hne
    have : ¬ (some p = some w.id) := by simpa using hne
    simp [LayoutParent.setParent, this]
  · rintro w rfl rfl hlay
    simp [LayoutParent.setParent, hlay]
  · rintro w rfl rfl hlay
    simp [LayoutParent.setParent, hlay]
  · intro r hok
    rcases value with _ | w
    · cases hok
    · simp only [LayoutParent.setParent] at hok
      split_ifs at hok with h1 h2 h3 <;>
        first
          | (right; simpa using h2)
          | (injection hok with h; exact Or.inl h.symm)
          | simp at hok

/-- C8 witness: a concrete successful assignment through the setter. -/
theorem layout_setParent_witness :
    LayoutParent.setParent 0 none
      (some { id := 1, layout := some 0 }) = Except.ok (some 1) :=
  (layout_setParent_spec 0 none (some { id := 1, layout := some 0 })).2.2.2.2.1
    { id := 1, layout := some 0 } rfl rfl rfl

end PhosphorUi

namespace PhosphorUi

set_option maxHeartbeats 2000000 in
/-- C9: setGeometry sends a ResizeMessage carrying the new width and height
iff the width or the height differs from the stored rect; a position-only
change updates the position styles and rect but sends no message; a call
with an entirely unchanged rect changes nothing. -/
theorem setGeometry_spec (s : Geometry.GeoState) (l t w h : Int) :
    ((s.rect.width ≠ some w ∨ s.rect.height ≠ some h) →
      (Geometry.setGeometry s l t w h).msgs = s.msgs ++ [(w, h)]) ∧
    (s.rect.width = some w → s.rect.height = some h →
      (Geometry.setGeometry s l t w h).msgs = s.msgs ∧
      (Geometry.setGeometry s l t w h).rect.width = s.rect.width ∧
      (Geometry.setGeometry s l t w h).rect.height = s.rect.height ∧
      (s.rect.top ≠ some t →
        (Geometry.setGeometry s l t w h).rect.top = some t ∧
        (Geometry.setGeometry s l t w h).style.top = some t) ∧
      (s.rect.left ≠ some l →
        (Geometry.setGeometry s l t w h).rect.left = some l ∧
        (Geometry.setGeometry s l t w h).style.left = some l)) ∧
    (s.rect = { top := some t, left := some l,
                width := some w, height := some h } →
      Geometry.setGeometry s l t w h = s) := by
  refine ⟨?_, ?_, ?_⟩
  · intro hwh
    simp only [Geometry.setGeometry]
    split_ifs <;> simp_all
  · intro hw hh
    simp only [Geometry.setGeometry]
    split_ifs <;> simp_all
  · intro hr
    have ht : s.rect.top = some t := by rw [hr]
    have hl : s.rect.left = some l := by rw [hr]
    have hw : s.rect.width = some w := by rw [hr]
    have hh : s.rect.height = some h := by rw [hr]
    simp only [Geometry.setGeometry]
    split_ifs <;> simp_all

/-- C9 witness: a position-only change at a concrete state sends no message,
and a genuine resize sends exactly one message carrying the new size. -/
theorem setGeometry_witness :
    ((Geometry.setGeometry
        { rect := { top := some 0, left := some 0,
                    width := some 10, height := some 10 },
          style := { top := some 0, left := some 0,
                     width := some 10, height := some 10 },
          msgs := [] } 5 5 10 10).msgs = [] ∧
     (Geometry.setGeometry
        { rect := { top := some 0, left := some 0,
                    width := some 10, height := some 10 },
          style := { top := some 0, left := some 0,
                     width := some 10, height := some 10 },
          msgs := [] } 0 0 20 10).msgs = [(20, 10)]) := by
  constructor
  · exact ((setGeometry_spec
      { rect := { top := some 0, left := some 0,
                  width := some 10, height := some 10 },
        style := { top := some 0, left := some 0,
                   width := some 10, height := some 10 },
        msgs := [] } 5 5 10 10).2.1 rfl rfl).1
  · exact (setGeometry_spec
      { rect := { top := some 0, left := some 0,
                  width := some 10, height := some 10 },
        style := { top := some 0, left := some 0,
                   width := some 10, height := some 10 },
        msgs := [] } 0 0 20 10).1 (Or.inl (by decide))

end PhosphorUi

namespace PhosphorUi

/-- C6: Menu.open is a no-op when the menu is attached; otherwise the root
menu lands at (x, y) except that horizontal overflow pulls the left edge to
pageXOffset + clientWidth - width, vertical overflow flips the menu above
the anchor (y - height) or, when y is already past the bottom edge, clamps
it to pageYOffset + clientHeight - height, and both final style coordinates
are clamped to be at least 0. -/
theorem menu_open_spec (att : Bool) (x y : Int) (vp : MenuOpenGeo.ViewPort)
    (r : MenuOpenGeo.MenuRect) :
    (att = true → MenuOpenGeo.menuOpen att x y vp r = none) ∧
    (att = false →
      ∃ left top, MenuOpenGeo.menuOpen att x y vp r = some (left, top) ∧
        0 ≤ left ∧ 0 ≤ top ∧
        (x + r.width ≤ vp.pageXOffset + vp.clientWidth → left = max 0 x) ∧
        (vp.pageXOffset + vp.clientWidth < x + r.width →
          left = max 0 (vp.pageXOffset + vp.clientWidth - r.width)) ∧
        (y + r.height ≤ vp.pageYOffset + vp.clientHeight → top = max 0 y) ∧
        (vp.pageYOffset + vp.clientHeight < y + r.height →
          y ≤ vp.pageYOffset + vp.clientHeight → top = max 0 (y - r.height)) ∧
        (vp.pageYOffset + vp.clientHeight < y + r.height →
          vp.pageYOffset + vp.clientHeight < y →
          top = max 0 (vp.pageYOffset + vp.clientHeight - r.height))) := by
  constructor
  · rintro rfl
    rfl
  · rintro rfl
    refine ⟨(MenuOpenGeo.openRootMenu x y vp r false false).1,
      (MenuOpenGeo.openRootMenu x y vp r false false).2, rfl, ?_, ?_, ?_, ?_, ?_, ?_, ?_⟩ <;>
      simp only [MenuOpenGeo.openRootMenu, Bool.false_eq_true, not_false_eq_true,
        true_and] <;>
      split_ifs <;>
      first
        | simp
        | omega
        | (intro h1; omega)
        | (intro h1 h2; omega)
        | (intro h1 h2; exfalso; omega)

/-- C6 witness: concrete openings exercising the attached no-op, the
unchanged placement, and the horizontal pull-back. -/
theorem menu_open_witness :
    MenuOpenGeo.menuOpen true 5 5
      { pageXOffset := 0, pageYOffset := 0,
        clientWidth := 100, clientHeight := 100 }
      { width := 10, height := 10 } = none ∧
    MenuOpenGeo.menuOpen false 95 5
      { pageXOffset := 0, pageYOffset := 0,
        clientWidth := 100, clientHeight := 100 }
      { width := 10, height := 10 } = some (90, 5) := by
  constructor
  · exact (menu_open_spec true 5 5
      { pageXOffset := 0, pageYOffset := 0,
        clientWidth := 100, clientHeight := 100 }
      { width := 10, height := 10 }).1 rfl
  · obtain ⟨left, top, heq, _, _, _, hx, hy, _, _⟩ :=
      (menu_open_spec false 95 5
        { pageXOffset := 0, pageYOffset := 0,
          clientWidth := 100, clientHeight := 100 }
        { width := 10, height := 10 }).2 rfl
    rw [heq, hx (by decide), hy (by decide)]
    decide

theorem foldl_addEventListener_of_disjoint :
    ∀ (L S : List Listeners.ListenerEntry), L.Nodup → (∀ l ∈ L, l ∉ S) →
      L.foldl Listeners.addEventListener S = S ++ L := by
  intro L
  induction L with
  | nil => intro S _ _; simp
  | cons a L ih =>
    intro S hnd hdis
    have ha : a ∉ S := hdis a (List.mem_cons_self a L)
    have h1 : Listeners.addEventListener S a = S ++ [a] := by
      simp [Listeners.addEventListener, ha]
    have hnd' : L.Nodup := (List.nodup_cons.mp hnd).2
    have haL : a ∉ L := (List.nodup_cons.mp hnd).1
    have hdis' : ∀ l ∈ L, l ∉ S ++ [a] := by
      intro l hl
      simp only [List.mem_append, List.mem_singleton]
      rintro (hS | rfl)
      · exact hdis l (List.mem_cons_of_mem a hl) hS
      · exact haL hl
    show L.foldl Listeners.addEventListener (Listeners.addEventListener S a) = S ++ a :: L
    rw [h1, ih (S ++ [a]) hnd' hdis']
    simp

theorem foldl_removeEventListener_append :
    ∀ (L S : List Listeners.ListenerEntry), L.Nodup → (∀ l ∈ L, l ∉ S) →
      L.foldl Listeners.removeEventListener (S ++ L) = S := by
  intro L
  induction L with
  | nil => intro S _ _; simp
  | cons a L ih =>
    intro S hnd hdis
    have ha : a ∉ S := hdis a (List.mem_cons_self a L)
    have h1 : Listeners.removeEventListener (S ++ a :: L) a = S ++ L := by
      simp only [Listeners.removeEventListener]
      rw [List.erase_append_right _ ha, List.erase_cons_head]
    have hnd' : L.Nodup := (List.nodup_cons.mp hnd).2
    show L.foldl Listeners.removeEventListener
        (Listeners.removeEventListener (S ++ a :: L) a) = S
    rw [h1]
    exact ih S hnd' (fun l hl => hdis l (List.mem_cons_of_mem a hl))

/-- C7: onAfterAttach installs exactly the seven menu listener entries and
onBeforeDetach removes entries with the same target, type and capture flag,
so on any listener set not already containing them an attach followed by a
detach is the identity. -/
theorem menu_listener_roundtrip (S : List Listeners.ListenerEntry)
    (h : ∀ l ∈ Listeners.menuListeners, l ∉ S) :
    Listeners.onAfterAttach S = S ++ Listeners.menuListeners ∧
    Listeners.onBeforeDetach (Listeners.onAfterAttach S) = S := by
  have hnd : Listeners.menuListeners.Nodup := by decide
  have h1 : Listeners.onAfterAttach S = S ++ Listeners.menuListeners :=
    foldl_addEventListener_of_disjoint Listeners.menuListeners S hnd h
  refine ⟨h1, ?_⟩
  rw [Listeners.onBeforeDetach, h1]
  exact foldl_removeEventListener_append Listeners.menuListeners S hnd h

/-- C7 witness: the round trip on the empty listener set. -/
theorem menu_listener_roundtrip_witness :
    Listeners.onAfterAttach [] = Listeners.menuListeners ∧
    Listeners.onBeforeDetach (Listeners.onAfterAttach []) = [] := by
  have h := menu_listener_roundtrip [] (by decide)
  exact ⟨by simpa using h.1, h.2⟩

end PhosphorUi

namespace PhosphorUi

theorem ratFloor_neg_one : Rat.floor (-1 : ℚ) = -1 := by decide

/-- C5: MenuBar.closeChildMenu is a no-op without an open child menu;
otherwise it removes the ACTIVE_CLASS from the bar, removes the capturing
document mousedown listener, clears the child menu reference, closes the
menu, and resets the active index to -1. -/
theorem menubar_closeChildMenu_spec (s : MenuBarM.MenuBarSt) :
    (s.childMenu = none → MenuBarM.closeChildMenu s = s) ∧
    (∀ m, s.childMenu = some m →
      (MenuBarM.closeChildMenu s).barActive = false ∧
      (MenuBarM.closeChildMenu s).docMousedown = false ∧
      (MenuBarM.closeChildMenu s).childMenu = none ∧
      (MenuBarM.closeChildMenu s).closed = s.closed ++ [m] ∧
      (MenuBarM.closeChildMenu s).activeIndex = -1) := by
  constructor
  · intro h
    simp [MenuBarM.closeChildMenu, h]
  · intro m hm
    have hco : MenuBarM.barCoerceIndex s.menus.length (-1) = -1 := by
      simp [MenuBarM.barCoerceIndex, ratFloor_neg_one]
    simp only [MenuBarM.closeChildMenu, hm, MenuBarM.setActiveIndex, hco]
    split_ifs with hb <;> simp_all

/-- C5 witness: closing a concrete open child menu. -/
theorem menubar_closeChildMenu_witness :
    (MenuBarM.closeChildMenu
      { menus := [4, 5], childMenu := some 5, activeIndex := 1,
        barActive := true, docMousedown := true,
        nodeActive := [false, true], closed := [] }).childMenu = none ∧
    (MenuBarM.closeChildMenu
      { menus := [4, 5], childMenu := some 5, activeIndex := 1,
        barActive := true, docMousedown := true,
        nodeActive := [false, true], closed := [] }).activeIndex = -1 := by
  have h := (menubar_closeChildMenu_spec
      { menus := [4, 5], childMenu := some 5, activeIndex := 1,
        barActive := true, docMousedown := true,
        nodeActive := [false, true], closed := [] }).2 5 rfl
  exact ⟨h.2.2.1, h.2.2.2.2⟩

end PhosphorUi

namespace PhosphorUi

theorem coerceActiveIndex_valid (items : List MenuItem) (v : ℚ) :
    TimedMenu.coerceActiveIndex items v = -1 ∨
    ∃ (i : Nat) (itm : MenuItem),
      TimedMenu.coerceActiveIndex items v = (i : Int) ∧
      items.get? i = some itm ∧ isSelectable itm = true := by
  by_cases hcond : Rat.floor v < 0 ∨ (items.length : Int) ≤ Rat.floor v
  · left
    simp only [TimedMenu.coerceActiveIndex, if_pos hcond]
    rcases hg : items.get? ((-1 : Int)).toNat with _ | itm <;> simp [hg]
  · have h0 : 0 ≤ Rat.floor v := by omega
    have hlen : Rat.floor v < (items.length : Int) := by omega
    have hi : ((Rat.floor v).toNat : Int) = Rat.floor v := Int.toNat_of_nonneg h0
    have hlt : (Rat.floor v).toNat < items.length := by omega
    obtain ⟨itm, hg⟩ : ∃ itm, items.get? (Rat.floor v).toNat = some itm := by
      rw [List.get?_eq_get hlt]
      exact ⟨_, rfl⟩
    by_cases hsel : isSelectable itm = true
    · right
      refine ⟨(Rat.floor v).toNat, itm, ?_, hg, hsel⟩
      simp only [TimedMenu.coerceActiveIndex, if_neg hcond, hg, hsel, if_true, hi]
    · left
      simp only [TimedMenu.coerceActiveIndex, if_neg hcond, hg]
      simp [hsel]

theorem coerceActiveIndex_out_of_range (items : List MenuItem) (v : ℚ)
    (h : Rat.floor v < 0 ∨ (items.length : Int) ≤ Rat.floor v) :
    TimedMenu.coerceActiveIndex items v = -1 := by
  simp only [TimedMenu.coerceActiveIndex, if_pos h]
  rcases hg : items.get? ((-1 : Int)).toNat with _ | itm <;> simp [hg]

theorem coerceActiveIndex_not_selectable (items : List MenuItem) (v : ℚ)
    (i : Nat) (itm : MenuItem) (hf : Rat.floor v = (i : Int))
    (hg : items.get? i = some itm) (hsel : isSelectable itm = false) :
    TimedMenu.coerceActiveIndex items v = -1 := by
  have hlt : i < items.length := by
    by_contra hge
    push_neg at hge
    rw [List.get?_eq_none.mpr hge] at hg
    cases hg
  have hcond : ¬(Rat.floor v < 0 ∨ (items.length : Int) ≤ Rat.floor v) := by
    rw [hf]
    omega
  have hi : (Rat.floor v).toNat = i := by omega
  simp only [TimedMenu.coerceActiveIndex, if_neg hcond, hi, hg, hsel]
  simp

/-- C10: every assignment through the Menu activeIndex setter, the
activeItem setter or the activeItemNode setter leaves activeIndex either -1
or the in-range index of a selectable item; out-of-range floored values and
non-selectable designated items both coerce to -1. -/
theorem menu_activeIndex_spec (s : MenuItems.MenuView) (v : ℚ)
    (it : Option MenuItem) (nd : Option Nat) :
    ((MenuItems.setActiveIndex s v).activeIndex = -1 ∨
      ∃ (i : Nat) (itm : MenuItem),
        (MenuItems.setActiveIndex s v).activeIndex = (i : Int) ∧
        s.items.get? i = some itm ∧ isSelectable itm = true) ∧
    (Rat.floor v < 0 ∨ (s.items.length : Int) ≤ Rat.floor v →
      (MenuItems.setActiveIndex s v).activeIndex = -1) ∧
    (∀ (i : Nat) (itm : MenuItem), Rat.floor v = (i : Int) →
      s.items.get? i = some itm → isSelectable itm = false →
      (MenuItems.setActiveIndex s v).activeIndex = -1) ∧
    ((MenuItems.setActiveItem s it).activeIndex = -1 ∨
      ∃ (i : Nat) (itm : MenuItem),
        (MenuItems.setActiveItem s it).activeIndex = (i : Int) ∧
        s.items.get? i = some itm ∧ isSelectable itm = true) ∧
    ((MenuItems.setActiveItemNode s nd).activeIndex = -1 ∨
      ∃ (i : Nat) (itm : MenuItem),
        (MenuItems.setActiveItemNode s nd).activeIndex = (i : Int) ∧
        s.items.get? i = some itm ∧ isSelectable itm = true) := by
  refine ⟨?_, ?_, ?_, ?_, ?_⟩
  · exact coerceActiveIndex_valid s.items v
  · intro h
    exact coerceActiveIndex_out_of_range s.items v h
  · intro i itm hf hg hsel
    exact coerceActiveIndex_not_selectable s.items v i itm hf hg hsel
  · rcases it with _ | itm
    · exact coerceActiveIndex_valid s.items (-1)
    · exact coerceActiveIndex_valid s.items _
  · rcases nd with _ | n
    · exact coerceActiveIndex_valid s.items (-1)
    · exact coerceActiveIndex_valid s.items _

/-- C10 witness: assigning index 0 of a one-item menu whose single item is a
disabled item coerces to -1, via the not-selectable branch. -/
theorem menu_activeIndex_witness :
    (MenuItems.setActiveIndex
      { items := [{ type := MenuItemType.normal, disabled := true,
                    submenu := none, handler := true }],
        nodes := [0], content := [0], activeIndex := -1,
        nextNodeId := 1 } 0).activeIndex = -1 :=
  (menu_activeIndex_spec
      { items := [{ type := MenuItemType.normal, disabled := true,
                    submenu := none, handler := true }],
        nodes := [0], content := [0], activeIndex := -1,
        nextNodeId := 1 } 0 none none).2.2.1 0
    { type := MenuItemType.normal, disabled := true,
      submenu := none, handler := true }
    (by decide) rfl (by decide)

end PhosphorUi

namespace PhosphorUi

theorem jsClampIndex_le (k : Int) (n : Nat) : jsClampIndex k n ≤ n := by
  simp only [jsClampIndex]
  omega

@[simp] theorem setActiveIndex_items (s : MenuItems.MenuView) (v : ℚ) :
    (MenuItems.setActiveIndex s v).items = s.items := rfl

@[simp] theorem setActiveIndex_nodes (s : MenuItems.MenuView) (v : ℚ) :
    (MenuItems.setActiveIndex s v).nodes = s.nodes := rfl

@[simp] theorem setActiveIndex_content (s : MenuItems.MenuView) (v : ℚ) :
    (MenuItems.setActiveIndex s v).content = s.content := rfl

@[simp] theorem setActiveIndex_nextNodeId (s : MenuItems.MenuView) (v : ℚ) :
    (MenuItems.setActiveIndex s v).nextNodeId = s.nextNodeId := rfl

theorem insertIdx_get?_succ {α : Type} (l : List α) (x : α) :
    ∀ i : Nat, i ≤ l.length → (l.insertIdx i x).get? (i + 1) = l.get? i := by
  induction l with
  | nil =>
    intro i hi
    have : i = 0 := Nat.le_zero.mp hi
    subst this
    rfl
  | cons y t ih =>
    intro i hi
    rcases i with _ | ii
    · rfl
    · have hi' : ii ≤ t.length := Nat.succ_le_succ_iff.mp hi
      show (y :: t.insertIdx ii x).get? (ii + 2) = t.get? ii
      have : (y :: t.insertIdx ii x).get? (ii + 2) = (t.insertIdx ii x).get? (ii + 1) := rfl
      rw [this, ih ii hi']

theorem menuInsertItem_shape (s : MenuItems.MenuView) (k : Int) (it : MenuItem)
    (h : MenuItems.MenuWF s) :
    (MenuItems.insertItem s k it).items =
      s.items.insertIdx (jsClampIndex k s.items.length) it ∧
    (MenuItems.insertItem s k it).nodes =
      s.nodes.insertIdx (jsClampIndex k s.items.length) s.nextNodeId ∧
    (MenuItems.insertItem s k it).content =
      s.nodes.insertIdx (jsClampIndex k s.items.length) s.nextNodeId ∧
    (MenuItems.insertItem s k it).nextNodeId = s.nextNodeId + 1 := by
  obtain ⟨hlen, hcon, hnd, hbound⟩ := h
  have hle : jsClampIndex k s.items.length ≤ s.nodes.length := by
    rw [hlen]
    exact jsClampIndex_le k s.items.length
  have hg : (s.nodes.insertIdx (jsClampIndex k s.items.length) s.nextNodeId).get?
      (jsClampIndex k s.items.length + 1) = s.nodes.get? (jsClampIndex k s.items.length) :=
    insertIdx_get?_succ s.nodes s.nextNodeId _ hle
  refine ⟨rfl, rfl, ?_, rfl⟩
  show domInsertBefore s.content s.nextNodeId
      ((s.nodes.insertIdx (jsClampIndex k s.items.length) s.nextNodeId).get?
        (jsClampIndex k s.items.length + 1)) = _
  rw [hg, hcon, domInsertBefore_get s.nodes s.nextNodeId _ hnd hle]

theorem menuInsertItem_WF (s : MenuItems.MenuView) (k : Int) (it : MenuItem)
    (h : MenuItems.MenuWF s) : MenuItems.MenuWF (MenuItems.insertItem s k it) := by
  obtain ⟨h1, h2, h3, h4⟩ := menuInsertItem_shape s k it h
  obtain ⟨hlen, hcon, hnd, hbound⟩ := h
  have hle : jsClampIndex k s.items.length ≤ s.nodes.length := by
    rw [hlen]
    exact jsClampIndex_le k s.items.length
  have hperm := List.perm_insertIdx s.nextNodeId s.nodes hle
  have hfresh : s.nextNodeId ∉ s.nodes := fun hm => lt_irrefl _ (hbound _ hm)
  refine ⟨?_, ?_, ?_, ?_⟩
  · rw [h1, h2, List.length_insertIdx _ _ hle,
      List.length_insertIdx _ _ (jsClampIndex_le k s.items.length), hlen]
  · rw [h2, h3]
  · rw [h2]
    exact hperm.symm.nodup (List.nodup_cons.mpr ⟨hfresh, hnd⟩)
  · rw [h2, h4]
    intro x hx
    have : x ∈ s.nextNodeId :: s.nodes := hperm.mem_iff.mp hx
    rcases List.mem_cons.mp this with rfl | hmem
    · omega
    · exact Nat.lt_succ_of_lt (hbound x hmem)

theorem menuRemoveItem_shape (s : MenuItems.MenuView) (k : Int)
    (h : MenuItems.MenuWF s) (hin : 0 ≤ k ∧ k < (s.items.length : Int)) :
    (MenuItems.removeItem s k).items = s.items.eraseIdx k.toNat ∧
    (MenuItems.removeItem s k).nodes = s.nodes.eraseIdx k.toNat ∧
    (MenuItems.removeItem s k).content = s.nodes.eraseIdx k.toNat ∧
    (MenuItems.removeItem s k).nextNodeId = s.nextNodeId := by
  obtain ⟨hlen, hcon, hnd, hbound⟩ := h
  have hcond : ¬(k < 0 ∨ (s.items.length : Int) ≤ k) := by omega
  have hlt : k.toNat < s.nodes.length := by
    rw [hlen]
    omega
  obtain ⟨node, hg⟩ : ∃ node, s.nodes.get? k.toNat = some node := by
    rw [List.get?_eq_get hlt]
    exact ⟨_, rfl⟩
  have herase : s.content.erase node = s.nodes.eraseIdx k.toNat := by
    rw [hcon]
    exact erase_eq_eraseIdx_nodup s.nodes k.toNat node hnd hg
  simp only [MenuItems.removeItem, if_neg hcond, setActiveIndex_items,
    setActiveIndex_nodes, setActiveIndex_content, setActiveIndex_nextNodeId, hg]
  exact ⟨trivial, trivial, herase, trivial⟩

theorem menuRemoveItem_WF (s : MenuItems.MenuView) (k : Int)
    (h : MenuItems.MenuWF s) : MenuItems.MenuWF (MenuItems.removeItem s k) := by
  by_cases hin : k < 0 ∨ (s.items.length : Int) ≤ k
  · simp only [MenuItems.removeItem, if_pos hin]
    exact h
  · have hin' : 0 ≤ k ∧ k < (s.items.length : Int) := by omega
    obtain ⟨h1, h2, h3, h4⟩ := menuRemoveItem_shape s k h hin'
    obtain ⟨hlen, hcon, hnd, hbound⟩ := h
    have hlt : k.toNat < s.nodes.length := by
      rw [hlen]
      omega
    have hsub : List.Sublist (s.nodes.eraseIdx k.toNat) s.nodes :=
      List.eraseIdx_sublist s.nodes k.toNat
    refine ⟨?_, ?_, ?_, ?_⟩
    · rw [h1, h2, List.length_eraseIdx, List.length_eraseIdx, hlen]
    · rw [h2, h3]
    · rw [h2]
      exact hnd.sublist hsub
    · rw [h2, h4]
      intro x hx
      exact hbound x (hsub.subset hx)

theorem menuClearItems_shape (s : MenuItems.MenuView) :
    (MenuItems.clearItems s).items = [] ∧
    (MenuItems.clearItems s).nodes = [] ∧
    (MenuItems.clearItems s).content = [] := ⟨rfl, rfl, rfl⟩

theorem applyMenuOps_WF : ∀ (ops : List MenuItems.MenuOp) (s : MenuItems.MenuView),
    MenuItems.MenuWF s → MenuItems.MenuWF (MenuItems.applyMenuOps ops s) := by
  intro ops
  induction ops with
  | nil => intro s h; exact h
  | cons op ops ih =>
    intro s h
    show MenuItems.MenuWF (MenuItems.applyMenuOps ops (MenuItems.applyMenuOp s op))
    apply ih
    rcases op with ⟨k, it⟩ | k | _
    · exact menuInsertItem_WF s k it h
    · exact menuRemoveItem_WF s k h
    · exact ⟨rfl, rfl, List.nodup_nil, fun x hx => absurd hx (List.not_mem_nil x)⟩

/-- C4: after any sequence of insertItem, removeItem and clearItems starting
from an empty menu, the items and item nodes stay in one-to-one positional
correspondence with the content node children; insertItem places item and
fresh node at the clamped index, removeItem with an out-of-range index is a
no-op, and clearItems empties all three containers. -/
theorem menu_items_sync_spec :
    (∀ ops : List MenuItems.MenuOp,
      (MenuItems.applyMenuOps ops MenuItems.menuInit).nodes.length =
        (MenuItems.applyMenuOps ops MenuItems.menuInit).items.length ∧
      (MenuItems.applyMenuOps ops MenuItems.menuInit).content =
        (MenuItems.applyMenuOps ops MenuItems.menuInit).nodes) ∧
    (∀ (s : MenuItems.MenuView) (k : Int) (it : MenuItem), MenuItems.MenuWF s →
      (MenuItems.insertItem s k it).items =
        s.items.insertIdx (jsClampIndex k s.items.length) it ∧
      (MenuItems.insertItem s k it).nodes =
        s.nodes.insertIdx (jsClampIndex k s.items.length) s.nextNodeId ∧
      (MenuItems.insertItem s k it).content =
        (MenuItems.insertItem s k it).nodes) ∧
    (∀ (s : MenuItems.MenuView) (k : Int),
      k < 0 ∨ (s.items.length : Int) ≤ k → MenuItems.removeItem s k = s) ∧
    (∀ s : MenuItems.MenuView,
      (MenuItems.clearItems s).items = [] ∧
      (MenuItems.clearItems s).nodes = [] ∧
      (MenuItems.clearItems s).content = []) := by
  refine ⟨?_, ?_, ?_, ?_⟩
  · intro ops
    have h := applyMenuOps_WF ops MenuItems.menuInit
      ⟨rfl, rfl, List.nodup_nil, by intro x hx; cases hx⟩
    exact ⟨h.1, h.2.1⟩
  · intro s k it h
    obtain ⟨h1, h2, h3, _⟩ := menuInsertItem_shape s k it h
    exact ⟨h1, h2, by rw [h2, h3]⟩
  · intro s k hout
    simp only [MenuItems.removeItem, if_pos hout]
  · exact menuClearItems_shape

/-- C4 witness: the invariant after a concrete operation sequence, and a
concrete out-of-range removal no-op. -/
theorem menu_items_sync_witness :
    ((MenuItems.applyMenuOps
        [MenuItems.MenuOp.insert 0
          { type := MenuItemType.normal, disabled := false,
            submenu := none, handler := true },
         MenuItems.MenuOp.insert 7
          { type := MenuItemType.separator, disabled := false,
            submenu := none, handler := false }]
        MenuItems.menuInit).content =
      (MenuItems.applyMenuOps
        [MenuItems.MenuOp.insert 0
          { type := MenuItemType.normal, disabled := false,
            submenu := none, handler := true },
         MenuItems.MenuOp.insert 7
          { type := MenuItemType.separator, disabled := false,
            submenu := none, handler := false }]
        MenuItems.menuInit).nodes) ∧
    MenuItems.removeItem MenuItems.menuInit 3 = MenuItems.menuInit := by
  constructor
  · exact (menu_items_sync_spec.1
      [MenuItems.MenuOp.insert 0
        { type := MenuItemType.normal, disabled := false,
          submenu := none, handler := true },
       MenuItems.MenuOp.insert 7
        { type := MenuItemType.separator, disabled := false,
          submenu := none, handler := false }]).2
  · exact menu_items_sync_spec.2.2.1 MenuItems.menuInit 3 (by decide)

end PhosphorUi

namespace PhosphorUi

namespace PanelLayout

theorem insertChild_not_mem_eq (s : PLState) (k : Int) (w : Nat)
    (hw : w ∉ s.children) :
    insertChild s k w =
      (match s.parent with
        | some p =>
          ({ children := s.children.insertIdx (jsClampIndex k s.children.length) w,
             parent := some (attachChild p (jsClampIndex k s.children.length) w).1 },
            PLEff.setParent w (some p.id) ::
              (attachChild p (jsClampIndex k s.children.length) w).2)
        | none =>
          ({ children := s.children.insertIdx (jsClampIndex k s.children.length) w,
             parent := none }, [PLEff.setParent w none])) := by
  have hi : jsIndexOf s.children w = -1 := (jsIndexOf_eq_neg_one _ _).mpr hw
  simp only [insertChild, hi, if_pos]
  rcases s.parent with _ | p <;> simp

theorem insertChild_mem_eq (s : PLState) (k : Int) (w : Nat)
    (hw : w ∈ s.children) :
    insertChild s k w =
      (let n := s.children.length
       let j := jsClampIndex k n
       let i := s.children.indexOf w
       let j2 := if j = n then n - 1 else j
       if i = j2 then (s, [PLEff.setParent w (s.parent.map PLParent.id)])
       else
         match s.parent with
         | some p =>
           ({ children := seqMove s.children i j2,
              parent := some (moveChild p i j2 w).1 },
             PLEff.setParent w (some p.id) :: (moveChild p i j2 w).2)
         | none =>
           ({ children := seqMove s.children i j2, parent := none },
             [PLEff.setParent w none])) := by
  have hiv : jsIndexOf s.children w = (s.children.indexOf w : Int) :=
    jsIndexOf_of_mem hw
  have hne : ¬ jsIndexOf s.children w = -1 := by
    rw [hiv]
    omega
  have htn : (jsIndexOf s.children w).toNat = s.children.indexOf w := by
    rw [hiv]
    exact Int.toNat_natCast _
  have hj2 : (if jsClampIndex k s.children.length = s.children.length
      then jsClampIndex k s.children.length - 1
      else jsClampIndex k s.children.length) =
      (if jsClampIndex k s.children.length = s.children.length
      then s.children.length - 1
      else jsClampIndex k s.children.length) := by
    split_ifs with h
    · rw [h]
    · rfl
  simp only [insertChild, if_neg hne, htn, hj2]
  by_cases hij : s.children.indexOf w =
      (if jsClampIndex k s.children.length = s.children.length
        then s.children.length - 1
        else jsClampIndex k s.children.length)
  · rw [if_pos (by rw [hiv]; exact_mod_cast hij), if_pos hij]
  · rw [if_neg (fun h => hij (by rw [hiv] at h; exact_mod_cast h)), if_neg hij]
    rcases s.parent with _ | p <;> simp

end PanelLayout

end PhosphorUi

namespace PhosphorUi

namespace PanelLayout

theorem attachChild_eq (p : PLParent) (j w : Nat) (cs : List Nat)
    (hnode : p.node = cs) (hnd : cs.Nodup) (hj : j ≤ cs.length) :
    attachChild p j w =
      ({ p with node := cs.insertIdx j w },
        if p.isAttached then [PLEff.send w WMsg.afterAttach] else []) := by
  simp only [attachChild, hnode, domInsertBefore_get cs w j hnd hj]

theorem moveChild_eq (p : PLParent) (i j2 w : Nat) (cs : List Nat)
    (hnode : p.node = cs) (hnd : cs.Nodup) (hg : cs.get? i = some w)
    (hj2 : j2 ≤ cs.length - 1) :
    moveChild p i j2 w =
      ({ p with node := (cs.eraseIdx i).insertIdx j2 w },
        (if p.isAttached then [PLEff.send w WMsg.beforeDetach] else []) ++
        (if p.isAttached then [PLEff.send w WMsg.afterAttach] else [])) := by
  have herase : cs.erase w = cs.eraseIdx i := erase_eq_eraseIdx_nodup cs i w hnd hg
  have hilt : i < cs.length := by
    by_contra hge
    push_neg at hge
    rw [List.get?_eq_none.mpr hge] at hg
    cases hg
  have hlen : (cs.eraseIdx i).length = cs.length - 1 := by
    rw [List.length_eraseIdx]
    simp [hilt]
  have hnd' : (cs.eraseIdx i).Nodup := by
    rw [← herase]
    exact hnd.erase w
  have hj2' : j2 ≤ (cs.eraseIdx i).length := by omega
  simp only [moveChild, hnode, herase, domInsertBefore_get _ w j2 hnd' hj2']

/-- C1 amended: PanelLayout.insertChild sets the parent of the widget to the
layout parent first, clamps the index to [0, children.length], inserts a
missing child into the children and the parent DOM node at the clamped
index (sending after-attach iff the parent is attached), moves an existing
child to the end-adjusted clamped index with no effect when the index is
unchanged, and on a real move relocates the DOM node to that index, the
before-detach and after-attach messages being sent iff the parent is
attached (the claim asserted them whenever a parent merely exists). -/
theorem panelLayout_insertChild_amended (s : PLState) (k : Int) (w : Nat)
    (hWF : WF s) :
    ((jsClampIndex k s.children.length : Int) =
        max 0 (min k (s.children.length : Int)) ∧
      jsClampIndex k s.children.length ≤ s.children.length) ∧
    (∃ rest, (insertChild s k w).2 =
      PLEff.setParent w (s.parent.map PLParent.id) :: rest) ∧
    (w ∉ s.children →
      (insertChild s k w).1.children =
        s.children.insertIdx (jsClampIndex k s.children.length) w ∧
      (s.parent = none → (insertChild s k w).1.parent = none ∧
        (insertChild s k w).2 = [PLEff.setParent w none]) ∧
      (∀ p, s.parent = some p →
        (insertChild s k w).1.parent =
          some { p with node :=
            (s.children.insertIdx (jsClampIndex k s.children.length) w) } ∧
        (insertChild s k w).2 = PLEff.setParent w (some p.id) ::
          (if p.isAttached then [PLEff.send w WMsg.afterAttach] else []))) ∧
    (w ∈ s.children →
      (s.children.indexOf w =
          (if jsClampIndex k s.children.length = s.children.length
            then s.children.length - 1 else jsClampIndex k s.children.length) →
        (insertChild s k w).1 = s ∧
        (insertChild s k w).2 =
          [PLEff.setParent w (s.parent.map PLParent.id)]) ∧
      (s.children.indexOf w ≠
          (if jsClampIndex k s.children.length = s.children.length
            then s.children.length - 1 else jsClampIndex k s.children.length) →
        (insertChild s k w).1.children =
          (s.children.eraseIdx (s.children.indexOf w)).insertIdx
            (if jsClampIndex k s.children.length = s.children.length
              then s.children.length - 1 else jsClampIndex k s.children.length) w ∧
        (s.parent = none → (insertChild s k w).1.parent = none ∧
          (insertChild s k w).2 = [PLEff.setParent w none]) ∧
        (∀ p, s.parent = some p →
          (insertChild s k w).1.parent =
            some { p with node :=
              ((s.children.eraseIdx (s.children.indexOf w)).insertIdx
                (if jsClampIndex k s.children.length = s.children.length
                  then s.children.length - 1
                  else jsClampIndex k s.children.length) w) } ∧
          (insertChild s k w).2 = PLEff.setParent w (some p.id) ::
            ((if p.isAttached then [PLEff.send w WMsg.beforeDetach] else []) ++
             (if p.isAttached then [PLEff.send w WMsg.afterAttach] else []))))) := by
  obtain ⟨hnd, hpar⟩ := hWF
  have hjle : jsClampIndex k s.children.length ≤ s.children.length :=
    jsClampIndex_le k s.children.length
  refine ⟨⟨by simp only [jsClampIndex]; omega, hjle⟩, ?_, ?_, ?_⟩
  · by_cases hw : w ∈ s.children
    · rw [insertChild_mem_eq s k w hw]
      dsimp only
      split_ifs <;>
        first
          | exact ⟨[], rfl⟩
          | (rcases hp : s.parent with _ | p <;> dsimp only <;> exact ⟨_, rfl⟩)
    · rw [insertChild_not_mem_eq s k w hw]
      rcases hp : s.parent with _ | p <;> dsimp only <;> exact ⟨_, rfl⟩
  · intro hw
    rw [insertChild_not_mem_eq s k w hw]
    rcases hp : s.parent with _ | p <;> dsimp only
    · exact ⟨rfl, fun _ => ⟨rfl, rfl⟩, fun p hp' => Option.noConfusion hp'⟩
    · have hnode : p.node = s.children := by
        rw [hp] at hpar
        exact hpar
      rw [attachChild_eq p (jsClampIndex k s.children.length) w s.children
        hnode hnd hjle]
      refine ⟨rfl, fun h => Option.noConfusion h, ?_⟩
      intro p' hp'
      injection hp' with he
      subst he
      exact ⟨rfl, rfl⟩
  · intro hw
    have higet : s.children.get? (s.children.indexOf w) = some w :=
      List.indexOf_get? hw
    have hilt : s.children.indexOf w < s.children.length :=
      List.indexOf_lt_length.mpr hw
    have hj2le : (if jsClampIndex k s.children.length = s.children.length
        then s.children.length - 1 else jsClampIndex k s.children.length) ≤
        s.children.length - 1 := by
      split_ifs with h
      · omega
      · omega
    rw [insertChild_mem_eq s k w hw]
    dsimp only
    constructor
    · intro hij
      rw [if_pos hij]
      exact ⟨rfl, rfl⟩
    · intro hij
      rw [if_neg hij]
      have hseq : seqMove s.children (s.children.indexOf w)
          (if jsClampIndex k s.children.length = s.children.length
            then s.children.length - 1 else jsClampIndex k s.children.length) =
          (s.children.eraseIdx (s.children.indexOf w)).insertIdx
            (if jsClampIndex k s.children.length = s.children.length
              then s.children.length - 1 else jsClampIndex k s.children.length) w := by
        have hg2 : s.children[s.children.indexOf w]? = some w := by
          rw [← List.get?_eq_getElem?]
          exact higet
        simp [seqMove, hg2]
      rcases hp : s.parent with _ | p <;> dsimp only
      · exact ⟨hseq, fun _ => ⟨rfl, rfl⟩, fun p hp' => Option.noConfusion hp'⟩
      · have hnode : p.node = s.children := by
          rw [hp] at hpar
          exact hpar
        rw [moveChild_eq p (s.children.indexOf w) _ w s.children hnode hnd
          higet hj2le]
        refine ⟨hseq, fun h => Option.noConfusion h, ?_⟩
        intro p' hp'
        injection hp' with he
        subst he
        exact ⟨rfl, rfl⟩

end PanelLayout

end PhosphorUi

namespace PhosphorUi

/-- C1 counterexample: with a parent widget that is not attached to the DOM,
moving child 0 of [0, 1] to index 1 performs no message dispatch at all —
the trace is just the setParent effect — while the claim as stated demands
the before-detach and after-attach messages whenever a parent exists. -/
theorem panelLayout_insertChild_counterexample : ¬ PanelLayout.ClaimC1Stated := by
  intro h
  have h1 := h ⟨[0, 1], some ⟨7, [0, 1], false⟩⟩ 1 0 ⟨by decide, by decide⟩
  have h2 := h1.2 (by decide)
  have h3 := h2 (by decide) ⟨7, [0, 1], false⟩ rfl
  exact absurd h3.2 (by decide)

/-- C1 witness: the same move with an attached parent produces the full
before-detach / after-attach trace after the setParent effect. -/
theorem panelLayout_insertChild_witness :
    (PanelLayout.insertChild
      { children := [0, 1],
        parent := some { id := 7, node := [0, 1], isAttached := true } } 1 0).2 =
      [PanelLayout.PLEff.setParent 0 (some 7),
       PanelLayout.PLEff.send 0 PanelLayout.WMsg.beforeDetach,
       PanelLayout.PLEff.send 0 PanelLayout.WMsg.afterAttach] := by
  have h := (PanelLayout.panelLayout_insertChild_amended
      ⟨[0, 1], some ⟨7, [0, 1], true⟩⟩ 1 0
      ⟨by decide, by decide⟩).2.2.2 (by decide)
  have h2 := (h.2 (by decide)).2.2 ⟨7, [0, 1], true⟩ rfl
  exact h2.2.trans (by decide)

end PhosphorUi

namespace PhosphorUi

namespace MenuChain

theorem upd_same {α : Type} (f : Nat → α) (k : Nat) (v : α) : upd f k v k = v := by
  simp [upd]

theorem upd_other {α : Type} (f : Nat → α) (k : Nat) (v : α) (x : Nat)
    (h : x ≠ k) : upd f k v x = f x := by
  simp [upd, h]

theorem upd_none_or {f : Nat → Option Nat} {k x : Nat} :
    upd f k none x = none ∨ upd f k none x = f x := by
  by_cases h : x = k
  · subst h
    exact Or.inl (upd_same f x none)
  · exact Or.inr (upd_other f k none x h)

theorem upd_false_or {f : Nat → Bool} {k x : Nat} :
    upd f k false x = false ∨ upd f k false x = f x := by
  by_cases h : x = k
  · subst h
    exact Or.inl (upd_same f x false)
  · exact Or.inr (upd_other f k false x h)

theorem none_or_trans {a b c : Option Nat} (h1 : a = none ∨ a = b)
    (h2 : b = none ∨ b = c) : a = none ∨ a = c := by
  rcases h1 with h1 | h1
  · exact Or.inl h1
  · rcases h2 with h2 | h2
    · exact Or.inl (h1.trans h2)
    · exact Or.inr (h1.trans h2)

theorem false_or_trans {a b c : Bool} (h1 : a = false ∨ a = b)
    (h2 : b = false ∨ b = c) : a = false ∨ a = c := by
  rcases h1 with h1 | h1
  · exact Or.inl h1
  · rcases h2 with h2 | h2
    · exact Or.inl (h1.trans h2)
    · exact Or.inr (h1.trans h2)

theorem lf_cancelTimers {s : MenuSt} {m : Nat} (h : linksForward s) :
    linksForward (cancelTimers m s) := h

theorem lf_resetActive {s : MenuSt} {m : Nat} (h : linksForward s) :
    linksForward (resetActive m s) := h

theorem lf_detachMenu {s : MenuSt} {m : Nat} (h : linksForward s) :
    linksForward (detachMenu m s) := h

theorem lf_unlinkChild {s : MenuSt} {m c : Nat} (h : linksForward s)
    (hc : s.childMenu m = some c) : linksForward (unlinkChild m c s) := by
  intro x y hxy
  show upd s.parentMenu c none y = some x
  by_cases hxm : x = m
  · subst hxm
    rw [show (unlinkChild x c s).childMenu = upd s.childMenu x none from rfl,
      upd_same] at hxy
    cases hxy
  · rw [show (unlinkChild m c s).childMenu = upd s.childMenu m none from rfl,
      upd_other _ _ _ _ hxm] at hxy
    have hpy := h x y hxy
    by_cases hyc : y = c
    · subst hyc
      exact absurd (Option.some.inj (hpy.symm.trans (h m y hc))) hxm
    · rw [upd_other _ _ _ _ hyc]
      exact hpy

theorem lf_unlinkParent {s : MenuSt} {m p : Nat} (h : linksForward s)
    (hp : s.parentMenu m = some p) : linksForward (unlinkParent m p s) := by
  intro x y hxy
  show upd s.parentMenu m none y = some x
  by_cases hxp : x = p
  · subst hxp
    rw [show (unlinkParent m x s).childMenu = upd s.childMenu x none from rfl,
      upd_same] at hxy
    cases hxy
  · rw [show (unlinkParent m p s).childMenu = upd s.childMenu p none from rfl,
      upd_other _ _ _ _ hxp] at hxy
    have hpy := h x y hxy
    by_cases hym : y = m
    · subst hym
      exact absurd (Option.some.inj (hpy.symm.trans hp)) hxp
    · rw [upd_other _ _ _ _ hym]
      exact hpy

theorem lf_closeMenu : ∀ (fuel m : Nat) (s : MenuSt), linksForward s →
    linksForward (closeMenu fuel m s) := by
  intro fuel
  induction fuel with
  | zero => intro m s h; exact h
  | succ fuel ih =>
    intro m s h
    have h2 : linksForward (resetActive m (cancelTimers m s)) := h
    simp only [closeMenu]
    rcases hc : (resetActive m (cancelTimers m s)).childMenu m with _ | c <;>
      simp only [hc]
    · rcases hp : (resetActive m (cancelTimers m s)).parentMenu m with _ | p <;>
        simp only [hp]
      · exact lf_detachMenu h2
      · exact lf_detachMenu (lf_unlinkParent h2 hp)
    · have h3 : linksForward
          (closeMenu fuel c (unlinkChild m c (resetActive m (cancelTimers m s)))) :=
        ih c _ (lf_unlinkChild h2 hc)
      rcases hp : (closeMenu fuel c
          (unlinkChild m c (resetActive m (cancelTimers m s)))).parentMenu m
        with _ | p <;> simp only [hp]
      · exact lf_detachMenu h3
      · exact lf_detachMenu (lf_unlinkParent h3 hp)

theorem lf_openChildMenu {s : MenuSt} {m item sub : Nat} (h : linksForward s)
    (hsub : s.parentMenu sub = none ∨ s.parentMenu sub = some m) :
    linksForward (openChildMenu m item sub s) := by
  by_cases hguard : s.childItem m = some item
  · unfold openChildMenu
    rw [if_pos hguard]
    exact h
  · have hch : (openChildMenu m item sub s).childMenu =
        upd s.childMenu m (some sub) := by
      unfold openChildMenu
      rw [if_neg hguard]
    have hpm : (openChildMenu m item sub s).parentMenu =
        upd s.parentMenu sub (some m) := by
      unfold openChildMenu
      rw [if_neg hguard]
    intro x y hxy
    rw [hch] at hxy
    rw [hpm]
    by_cases hxm : x = m
    · subst hxm
      rw [upd_same] at hxy
      injection hxy with hy
      subst hy
      rw [upd_same]
    · rw [upd_other _ _ _ _ hxm] at hxy
      have hpy := h x y hxy
      by_cases hys : y = sub
      · subst hys
        rcases hsub with hn | hm
        · rw [hpy] at hn
          cases hn
        · exact absurd (Option.some.inj (hpy.symm.trans hm)) hxm
      · rw [upd_other _ _ _ _ hys]
        exact hpy

theorem lf_scheduleClose {s : MenuSt} {m : Nat} (h : linksForward s) :
    linksForward (scheduleClose m s) := by
  unfold scheduleClose
  split_ifs
  · exact h
  · exact h

theorem lf_fireClose {s : MenuSt} (fuel m : Nat) (h : linksForward s) :
    linksForward (fireClose fuel m s) := by
  have h1 : linksForward { s with closeTimer := upd s.closeTimer m false } := h
  simp only [fireClose]
  rcases hc : ({ s with closeTimer := upd s.closeTimer m false } : MenuSt).childMenu m
    with _ | c <;> simp only [hc]
  · exact h1
  · exact lf_closeMenu fuel c _ (lf_unlinkChild h1 hc)

theorem linksForward_reachable : ∀ s, Reachable s → linksForward s := by
  intro s hs
  induction hs with
  | init =>
    intro m c hc
    cases hc
  | openStep m item sub s hs hsub ih => exact lf_openChildMenu ih hsub
  | scheduleStep m s hs ih => exact lf_scheduleClose ih
  | fireStep fuel m s hs ht ih => exact lf_fireClose fuel m ih
  | closeStep fuel m s hs ih => exact lf_closeMenu fuel m s ih

end MenuChain

end PhosphorUi

namespace PhosphorUi

namespace MenuChain

theorem closeMenu_only_clears : ∀ (fuel m : Nat) (s : MenuSt),
    (∀ x, (closeMenu fuel m s).childMenu x = none ∨
      (closeMenu fuel m s).childMenu x = s.childMenu x) ∧
    (∀ x, (closeMenu fuel m s).parentMenu x = none ∨
      (closeMenu fuel m s).parentMenu x = s.parentMenu x) ∧
    (∀ x, (closeMenu fuel m s).attached x = false ∨
      (closeMenu fuel m s).attached x = s.attached x) := by
  intro fuel
  induction fuel with
  | zero =>
    intro m s
    exact ⟨fun x => Or.inr rfl, fun x => Or.inr rfl, fun x => Or.inr rfl⟩
  | succ fuel ih =>
    intro m s
    simp only [closeMenu]
    rcases hc : (resetActive m (cancelTimers m s)).childMenu m with _ | c <;>
      simp only [hc]
    · rcases hp : (resetActive m (cancelTimers m s)).parentMenu m with _ | p <;>
        simp only [hp]
      · exact ⟨fun x => Or.inr rfl, fun x => Or.inr rfl, fun x => upd_false_or⟩
      · refine ⟨fun x => upd_none_or, fun x => upd_none_or, fun x => upd_false_or⟩
    · obtain ⟨ihc, ihp, iha⟩ := ih c (unlinkChild m c (resetActive m (cancelTimers m s)))
      have hcc : ∀ x, (closeMenu fuel c
          (unlinkChild m c (resetActive m (cancelTimers m s)))).childMenu x = none ∨
          (closeMenu fuel c
          (unlinkChild m c (resetActive m (cancelTimers m s)))).childMenu x =
          s.childMenu x :=
        fun x => none_or_trans (ihc x) upd_none_or
      have hcp : ∀ x, (closeMenu fuel c
          (unlinkChild m c (resetActive m (cancelTimers m s)))).parentMenu x = none ∨
          (closeMenu fuel c
          (unlinkChild m c (resetActive m (cancelTimers m s)))).parentMenu x =
          s.parentMenu x :=
        fun x => none_or_trans (ihp x) upd_none_or
      have hca : ∀ x, (closeMenu fuel c
          (unlinkChild m c (resetActive m (cancelTimers m s)))).attached x = false ∨
          (closeMenu fuel c
          (unlinkChild m c (resetActive m (cancelTimers m s)))).attached x =
          s.attached x :=
        fun x => false_or_trans (iha x) (Or.inr rfl)
      rcases hp : (closeMenu fuel c
          (unlinkChild m c (resetActive m (cancelTimers m s)))).parentMenu m
        with _ | p <;> simp only [hp]
      · exact ⟨hcc, hcp, fun x => false_or_trans upd_false_or (hca x)⟩
      · refine ⟨fun x => none_or_trans upd_none_or (hcc x),
          fun x => none_or_trans upd_none_or (hcp x),
          fun x => false_or_trans upd_false_or (hca x)⟩

theorem closeMenu_attached_self (fuel m : Nat) (s : MenuSt) (h : 1 ≤ fuel) :
    (closeMenu fuel m s).attached m = false := by
  rcases fuel with _ | fuel
  · omega
  · simp only [closeMenu]
    rcases hc : (resetActive m (cancelTimers m s)).childMenu m with _ | c <;>
      simp only [hc]
    · rcases hp : (resetActive m (cancelTimers m s)).parentMenu m with _ | p <;>
        simp only [hp] <;> exact upd_same _ _ _
    · rcases hp : (closeMenu fuel c
          (unlinkChild m c (resetActive m (cancelTimers m s)))).parentMenu m
        with _ | p <;> simp only [hp] <;> exact upd_same _ _ _

theorem closeMenu_closes (fuel m : Nat) (s : MenuSt) :
    (closeMenu (fuel + 1) m s).childMenu m = none ∧
    (closeMenu (fuel + 1) m s).parentMenu m = none ∧
    (closeMenu (fuel + 1) m s).attached m = false ∧
    (∀ c, s.childMenu m = some c →
      (closeMenu (fuel + 1) m s).parentMenu c = none ∧
      (1 ≤ fuel → (closeMenu (fuel + 1) m s).attached c = false)) := by
  simp only [closeMenu]
  rcases hc : (resetActive m (cancelTimers m s)).childMenu m with _ | c <;>
    simp only [hc]
  · have hcs : s.childMenu m = none := hc
    rcases hp : (resetActive m (cancelTimers m s)).parentMenu m with _ | p <;>
      simp only [hp]
    · refine ⟨hc, hp, upd_same _ _ _, ?_⟩
      intro c hsc
      rw [hsc] at hcs
      cases hcs
    · refine ⟨?_, ?_, upd_same _ _ _, ?_⟩
      · rcases upd_none_or
          (f := (resetActive m (cancelTimers m s)).childMenu) (k := p) (x := m)
          with h | h
        · exact h
        · exact h.trans hc
      · exact upd_same _ _ _
      · intro c hsc
        rw [hsc] at hcs
        cases hcs
  · obtain ⟨ihc, ihp, iha⟩ :=
      closeMenu_only_clears fuel c (unlinkChild m c (resetActive m (cancelTimers m s)))
    have hu_cm : (unlinkChild m c (resetActive m (cancelTimers m s))).childMenu m =
        none := upd_same _ _ _
    have hu_pc : (unlinkChild m c (resetActive m (cancelTimers m s))).parentMenu c =
        none := upd_same _ _ _
    have h3c : (closeMenu fuel c
        (unlinkChild m c (resetActive m (cancelTimers m s)))).childMenu m = none := by
      rcases ihc m with h | h
      · exact h
      · exact h.trans hu_cm
    have h3pc : (closeMenu fuel c
        (unlinkChild m c (resetActive m (cancelTimers m s)))).parentMenu c = none := by
      rcases ihp c with h | h
      · exact h
      · exact h.trans hu_pc
    rcases hp : (closeMenu fuel c
        (unlinkChild m c (resetActive m (cancelTimers m s)))).parentMenu m
      with _ | p <;> simp only [hp]
    · refine ⟨h3c, hp, upd_same _ _ _, ?_⟩
      intro c' hsc
      have : c' = c := by
        have hcs : s.childMenu m = some c := hc
        rw [hcs] at hsc
        exact (Option.some.inj hsc).symm
      subst this
      refine ⟨h3pc, ?_⟩
      intro hf
      have hac : (closeMenu fuel c'
          (unlinkChild m c' (resetActive m (cancelTimers m s)))).attached c' = false :=
        closeMenu_attached_self fuel c' _ hf
      by_cases hcm : c' = m
      · subst hcm
        exact upd_same _ _ _
      · exact (upd_other _ _ _ _ hcm).trans hac
    · refine ⟨?_, ?_, upd_same _ _ _, ?_⟩
      · rcases upd_none_or (f := (closeMenu fuel c
            (unlinkChild m c (resetActive m (cancelTimers m s)))).childMenu)
            (k := p) (x := m) with h | h
        · exact h
        · exact h.trans h3c
      · exact upd_same _ _ _
      · intro c' hsc
        have hc'c : c' = c := by
          have hcs : s.childMenu m = some c := hc
          rw [hcs] at hsc
          exact (Option.some.inj hsc).symm
        subst hc'c
        constructor
        · by_cases hcm : c' = m
          · subst hcm
            exact upd_same _ _ _
          · exact (upd_other _ _ _ _ hcm).trans h3pc
        · intro hf
          have hac : (closeMenu fuel c'
              (unlinkChild m c' (resetActive m (cancelTimers m s)))).attached c' =
              false := closeMenu_attached_self fuel c' _ hf
          by_cases hcm : c' = m
          · subst hcm
            exact upd_same _ _ _
          · exact (upd_other _ _ _ _ hcm).trans hac

end MenuChain

end PhosphorUi

namespace PhosphorUi

/-- C2 amended: in every reachable state the forward links are consistent —
childMenu of m equal to c forces parentMenu of c equal to m — and
onCloseRequest clears the child and parent links of the closed menu on both
sides, detaches it, and (with enough cascade fuel) closes the child too.
The backward direction of the claim is false: see the counterexample. -/
theorem menu_links_amended :
    (∀ s, MenuChain.Reachable s → MenuChain.linksForward s) ∧
    (∀ (fuel m : Nat) (s : MenuChain.MenuSt),
      (MenuChain.closeMenu (fuel + 1) m s).childMenu m = none ∧
      (MenuChain.closeMenu (fuel + 1) m s).parentMenu m = none ∧
      (MenuChain.closeMenu (fuel + 1) m s).attached m = false ∧
      (∀ c, s.childMenu m = some c →
        (MenuChain.closeMenu (fuel + 1) m s).parentMenu c = none ∧
        (1 ≤ fuel → (MenuChain.closeMenu (fuel + 1) m s).attached c = false))) :=
  ⟨MenuChain.linksForward_reachable, MenuChain.closeMenu_closes⟩

/-- C2 counterexample: from the initial state, opening submenu 1 for item 10
of menu 0 and then submenu 2 for item 11 of the same menu leaves the old
child with parentMenu still pointing at menu 0 while childMenu of menu 0 is
menu 2 — a dangling backward link, so the claim as stated fails. -/
theorem menu_links_counterexample : ¬ MenuChain.ClaimC2Stated := by
  intro h
  have hr1 : MenuChain.Reachable
      (MenuChain.openChildMenu 0 10 1 MenuChain.initMenuSt) :=
    MenuChain.Reachable.openStep 0 10 1 MenuChain.initMenuSt
      MenuChain.Reachable.init (Or.inl rfl)
  have hr2 : MenuChain.Reachable
      (MenuChain.openChildMenu 0 11 2
        (MenuChain.openChildMenu 0 10 1 MenuChain.initMenuSt)) :=
    MenuChain.Reachable.openStep 0 11 2 _ hr1 (Or.inl (by decide))
  have hb := (h _ hr2).2
  have h1 : (MenuChain.openChildMenu 0 11 2
      (MenuChain.openChildMenu 0 10 1 MenuChain.initMenuSt)).parentMenu 1 =
      some 0 := by decide
  have h2 := hb 1 0 h1
  have h3 : (MenuChain.openChildMenu 0 11 2
      (MenuChain.openChildMenu 0 10 1 MenuChain.initMenuSt)).childMenu 0 =
      some 2 := by decide
  exact absurd (h2.symm.trans h3) (by decide)

/-- C2 witness: the forward invariant at the initial state, and a concrete
close clearing the child link. -/
theorem menu_links_witness :
    MenuChain.linksForward MenuChain.initMenuSt ∧
    (MenuChain.closeMenu 1 0 MenuChain.initMenuSt).childMenu 0 = none :=
  ⟨menu_links_amended.1 MenuChain.initMenuSt MenuChain.Reachable.init,
   (menu_links_amended.2 0 0 MenuChain.initMenuSt).1⟩

end PhosphorUi

namespace PhosphorUi

/-- C3 amended: both submenu transition delays are 300 ms; the delayed-open
helper arms an open task at now + OPEN_DELAY (a no-op when the item is
already the open child), closeChildMenu arms a close task at
now + CLOSE_DELAY (a no-op when a close is pending or no child is open),
canceling a pending task leaves the child-menu state unchanged, the tasks
perform the transition when they fire at their deadline — but the mousemove
hover handler never arms an open task: the submenu-opening block is
commented out in the source, so hovering only cancels any pending open. -/
theorem menu_timers_amended :
    (TimedMenu.OPEN_DELAY = 300 ∧ TimedMenu.CLOSE_DELAY = 300) ∧
    (∀ (s : TimedMenu.TMenu) (item : MenuItem) (node : Nat),
      s.childItem ≠ some item →
      (TimedMenu.openChildMenuDelayed s item node).pendingOpen =
        some { deadline := s.now + TimedMenu.OPEN_DELAY,
               item := item, node := node } ∧
      (TimedMenu.openChildMenuDelayed s item node).childMenu = s.childMenu ∧
      (TimedMenu.openChildMenuDelayed s item node).childItem = s.childItem) ∧
    (∀ (s : TimedMenu.TMenu) (item : MenuItem) (node : Nat),
      s.childItem = some item →
      TimedMenu.openChildMenuDelayed s item node = s) ∧
    (∀ s : TimedMenu.TMenu, s.pendingClose = none → s.childMenu ≠ none →
      (TimedMenu.closeChildMenu s).pendingClose =
        some (s.now + TimedMenu.CLOSE_DELAY) ∧
      (TimedMenu.closeChildMenu s).childMenu = s.childMenu ∧
      (TimedMenu.closeChildMenu s).childItem = s.childItem) ∧
    (∀ s : TimedMenu.TMenu, s.pendingClose.isSome ∨ s.childMenu = none →
      TimedMenu.closeChildMenu s = s) ∧
    (∀ s : TimedMenu.TMenu,
      (TimedMenu.cancelPendingOpen s).pendingOpen = none ∧
      (TimedMenu.cancelPendingOpen s).childMenu = s.childMenu ∧
      (TimedMenu.cancelPendingOpen s).childItem = s.childItem ∧
      (TimedMenu.cancelPendingClose s).pendingClose = none ∧
      (TimedMenu.cancelPendingClose s).childMenu = s.childMenu ∧
      (TimedMenu.cancelPendingClose s).childItem = s.childItem) ∧
    (∀ (s : TimedMenu.TMenu) (po : TimedMenu.PendingOpen),
      s.pendingOpen = some po → s.now = po.deadline →
      s.childItem ≠ some po.item →
      (TimedMenu.fireOpen s).childMenu = po.item.submenu ∧
      (TimedMenu.fireOpen s).childItem = some po.item ∧
      (TimedMenu.fireOpen s).pendingOpen = none) ∧
    (∀ (s : TimedMenu.TMenu) (d : Nat),
      s.pendingClose = some d → s.now = d →
      (TimedMenu.fireClose s).pendingClose = none ∧
      (TimedMenu.fireClose s).childMenu = none ∧
      (s.childMenu ≠ none → (TimedMenu.fireClose s).childItem = none)) ∧
    (∀ (s : TimedMenu.TMenu) (i : Int),
      (i ≠ s.activeIndex → (TimedMenu.evtMouseMove s i).pendingOpen = none) ∧
      (TimedMenu.evtMouseMove s i).childMenu = s.childMenu ∧
      (TimedMenu.evtMouseMove s i).childItem = s.childItem) := by
  refine ⟨⟨rfl, rfl⟩, ?_, ?_, ?_, ?_, ?_, ?_, ?_, ?_⟩
  · intro s item node h
    simp only [TimedMenu.openChildMenuDelayed, if_neg h]
    exact ⟨by first | rfl | trivial, by first | rfl | trivial,
      by first | rfl | trivial⟩
  · intro s item node h
    simp only [TimedMenu.openChildMenuDelayed, if_pos h]
  · intro s h1 h2
    have hcond : ¬(s.pendingClose.isSome = true ∨ s.childMenu = none) := by
      simp [h1, h2]
    simp only [TimedMenu.closeChildMenu, if_neg hcond]
    exact ⟨by first | rfl | trivial, by first | rfl | trivial,
      by first | rfl | trivial⟩
  · intro s h
    have hcond : s.pendingClose.isSome = true ∨ s.childMenu = none := by
      rcases h with h | h
      · exact Or.inl h
      · exact Or.inr h
    simp only [TimedMenu.closeChildMenu, if_pos hcond]
  · intro s
    exact ⟨rfl, rfl, rfl, rfl, rfl, rfl⟩
  · intro s po hpo hnow hitem
    simp only [TimedMenu.fireOpen, hpo, if_pos hnow]
    have hitem' : ({ s with pendingOpen := none } : TimedMenu.TMenu).childItem ≠
        some po.item := hitem
    simp only [TimedMenu.openChildMenu, if_neg hitem']
    exact ⟨by first | rfl | trivial, by first | rfl | trivial,
      by first | rfl | trivial⟩
  · intro s d hd hnow
    simp only [TimedMenu.fireClose, hd, if_pos hnow]
    rcases hcm : s.childMenu with _ | c
    · have : ({ s with pendingClose := none } : TimedMenu.TMenu).childMenu =
          none := hcm
      simp only [this]
      exact ⟨by first | rfl | trivial, by first | rfl | trivial,
        fun hne => absurd rfl hne⟩
    · have : ({ s with pendingClose := none } : TimedMenu.TMenu).childMenu =
          some c := hcm
      simp only [this]
      exact ⟨by first | rfl | trivial, by first | rfl | trivial,
        fun _ => by first | rfl | trivial⟩
  · intro s i
    refine ⟨?_, ?_, ?_⟩
    · intro hne
      simp only [TimedMenu.evtMouseMove, if_neg hne]
      rfl
    · simp only [TimedMenu.evtMouseMove]
      split_ifs
      · rfl
      · rfl
    · simp only [TimedMenu.evtMouseMove]
      split_ifs
      · rfl
      · rfl

/-- C3 counterexample: mousemove over a selectable submenu item that is not
the open child arms no open task — the handler only cancels pending opens —
refuting the claim that a hovered submenu item opens on a 300 ms delay. -/
theorem menu_timers_counterexample : ¬ TimedMenu.ClaimC3Stated := by
  intro h
  exact (h { now := 0,
             items := [{ type := MenuItemType.submenu, disabled := false,
                         submenu := some 5, handler := false }],
             activeIndex := -1, childItem := none, childMenu := none,
             pendingOpen := none, pendingClose := none }
      0
      { type := MenuItemType.submenu, disabled := false,
        submenu := some 5, handler := false }
      rfl (by decide) (by decide) (by decide) (by decide)) (by decide)

/-- C3 witness: a concrete delayed open is armed 300 ms in the future and a
cancel before the deadline leaves the child-menu state unchanged. -/
theorem menu_timers_witness :
    (TimedMenu.openChildMenuDelayed
      { now := 40, items := [], activeIndex := -1, childItem := none,
        childMenu := none, pendingOpen := none, pendingClose := none }
      { type := MenuItemType.submenu, disabled := false,
        submenu := some 5, handler := false } 3).pendingOpen =
      some { deadline := 340,
             item := { type := MenuItemType.submenu, disabled := false,
                       submenu := some 5, handler := false },
             node := 3 } :=
  ((menu_timers_amended.2.1
      { now := 40, items := [], activeIndex := -1, childItem := none,
        childMenu := none, pendingOpen := none, pendingClose := none }
      { type := MenuItemType.submenu, disabled := false,
        submenu := some 5, handler := false } 3 (by decide)).1).trans (by decide)

end PhosphorUi
